import Mathlib

/-!
# Verification of the secp256k1-zkp driver module (`src/secp256k1.c`)

This file gives a shallow embedding of the public entry points of
`src/secp256k1.c` and proves properties of them.  The driver file is the
authority for all control flow modelled here; the arithmetic and group
implementation headers (`scalar_impl.h`, `group_impl.h`, `ecdsa_impl.h`,
`eckey_impl.h`, `hash_impl.h`, `util.h`) are not part of the sources, so the
functions they provide are modelled from the specification, and each such
definition carries a doc comment starting with `Modelled from the spec:`.

Scalars are modelled as `ZMod scN` where `scN` is the order of the secp256k1
group (the driver's own documentation pins this value: the maximal lower-S
value `0x7FFF...B20A0` it quotes equals `(scN - 1) / 2`).  The curve group has
prime order `scN`, hence is cyclic and generated by G; following the
specification's description of the group as generated by `G`, points are
modelled by their discrete logarithm base G, i.e. also as `ZMod scN`.

The primality of `scN`, needed to reason about the modular inverses used by
ECDSA, is proved below by a Pratt / Lucas certificate chain.
-/

set_option maxRecDepth 40000

/-- The order of the secp256k1 group, `n` in the spec.  Derived from the
driver's documentation: twice the documented maximal lower-S value plus 1. -/
def scN : Nat := 115792089237316195423570985008687907852837564279074904382605163141518161494337

/-- Fuel-indexed binary modular exponentiation.  `powModAux m b fuel e`
computes `b ^ e % m` provided `e < 2 ^ fuel`. -/
def powModAux (m b : Nat) : Nat → Nat → Nat
  | 0, _ => 1 % m
  | fuel + 1, e =>
    if e = 0 then 1 % m
    else
      let r := powModAux m (b * b % m) fuel (e / 2)
      if e % 2 = 1 then b % m * r % m else r

/-- Binary modular exponentiation for exponents below `2 ^ 256`. -/
def powMod (m b e : Nat) : Nat := powModAux m b 256 e

theorem powModAux_correct (m : Nat) :
    ∀ (fuel : Nat) (b e : Nat), e < 2 ^ fuel → powModAux m b fuel e = b ^ e % m := by
  intro fuel
  induction fuel with
  | zero =>
    intro b e he
    have : e = 0 := by omega
    subst this
    simp [powModAux]
  | succ fuel ih =>
    intro b e he
    by_cases he0 : e = 0
    · subst he0; simp [powModAux]
    · have hdiv : e / 2 < 2 ^ fuel := by
        have h2 : e < 2 ^ fuel * 2 := by
          have : (2 : Nat) ^ (fuel + 1) = 2 ^ fuel * 2 := by ring
          omega
        omega
      have hrec := ih (b * b % m) (e / 2) hdiv
      have hbb : (b * b % m) ^ (e / 2) % m = (b * b) ^ (e / 2) % m := by
        rw [← Nat.pow_mod]
      have hsq : (b * b) ^ (e / 2) = b ^ (2 * (e / 2)) := by
        rw [two_mul, pow_add]
        exact mul_pow b b (e / 2)
      rcases Nat.even_or_odd e with heven | hodd
      · have hmod : e % 2 = 0 := Nat.even_iff.mp heven
        have hsplit : 2 * (e / 2) = e := by omega
        simp only [powModAux, he0, if_false, hmod]
        rw [hrec, hbb, hsq, hsplit]
        simp
      · have hmod : e % 2 = 1 := Nat.odd_iff.mp hodd
        have hsplit : 2 * (e / 2) + 1 = e := by omega
        simp only [powModAux, he0, if_false, hmod, if_true]
        rw [hrec, hbb, hsq]
        conv_rhs => rw [← hsplit, pow_succ, Nat.mul_mod]
        rw [Nat.mul_comm (b % m) (b ^ (2 * (e / 2)) % m)]

theorem powMod_correct (m b e : Nat) (he : e < 2 ^ 256) : powMod m b e = b ^ e % m :=
  powModAux_correct m 256 b e he

/-- Transfer a `powMod` computation into `ZMod p`. -/
theorem powMod_cast (p b e : Nat) (he : e < 2 ^ 256) :
    ((powMod p b e : Nat) : ZMod p) = (b : ZMod p) ^ e := by
  rw [powMod_correct p b e he, ZMod.natCast_mod, Nat.cast_pow]

theorem pow_eq_one_of_powMod (p b e : Nat) (he : e < 2 ^ 256) (_hp : 1 < p)
    (h : powMod p b e = 1) : (b : ZMod p) ^ e = 1 := by
  rw [← powMod_cast p b e he, h, Nat.cast_one]

theorem powModAux_lt (m : Nat) (hm : 0 < m) :
    ∀ (fuel b e : Nat), powModAux m b fuel e < m := by
  intro fuel
  induction fuel with
  | zero =>
    intro b e
    simpa [powModAux] using Nat.mod_lt 1 hm
  | succ fuel ih =>
    intro b e
    by_cases he : e = 0
    · simpa [powModAux, he] using Nat.mod_lt 1 hm
    · simp only [powModAux, he, if_false]
      by_cases hp : e % 2 = 1
      · simp only [hp, if_true]
        exact Nat.mod_lt _ hm
      · simp only [hp, if_false]
        exact ih _ _

theorem pow_ne_one_of_powMod (p b e : Nat) (he : e < 2 ^ 256) (hp : 1 < p)
    (h : powMod p b e ≠ 1) : (b : ZMod p) ^ e ≠ 1 := by
  intro hc
  apply h
  have hne : NeZero p := ⟨by omega⟩
  have hlt : powMod p b e < p := powModAux_lt p (by omega) 256 b e
  have hval : ((powMod p b e : Nat) : ZMod p).val = powMod p b e := ZMod.val_cast_of_lt hlt
  rw [powMod_cast p b e he, hc] at hval
  have hfact : Fact (1 < p) := ⟨hp⟩
  rw [ZMod.val_one] at hval
  exact hval.symm

theorem div_lt_2pow (x q : Nat) (h : x < 2 ^ 256) : x / q < 2 ^ 256 :=
  lt_of_le_of_lt (Nat.div_le_self x q) h

/-- If a prime `q` divides `a ^ n * b` with `a` prime, then `q = a` or `q` divides `b`. -/
theorem prime_divisor_cases {q a b : ℕ} (hq : q.Prime) (ha : a.Prime) (n : ℕ)
    (h : q ∣ a ^ n * b) : q = a ∨ q ∣ b := by
  rcases (Nat.Prime.dvd_mul hq).mp h with h1 | h2
  · exact Or.inl ((Nat.prime_dvd_prime_iff_eq hq ha).mp (hq.dvd_of_dvd_pow h1))
  · exact Or.inr h2
/-- Pratt certificate step: primality of `1627771` via the Lucas test with witness `3`. -/
theorem prime_1627771 : Nat.Prime 1627771 := by
  have hfac : 1627771 - 1 = 2 ^ 1 * (3 ^ 1 * (5 ^ 1 * (29 ^ 1 * (1871 ^ 1)))) := by norm_num
  apply lucas_primality 1627771 ((3 : Nat) : ZMod 1627771)
  · exact pow_eq_one_of_powMod 1627771 3 (1627771 - 1) (by norm_num) (by norm_num) (by decide)
  · intro q hq hdvd
    rw [hfac] at hdvd
    rcases prime_divisor_cases hq (by norm_num) _ hdvd with rfl | hdvd
    · exact pow_ne_one_of_powMod 1627771 3 _ (div_lt_2pow _ _ (by norm_num)) (by norm_num) (by decide)
    rcases prime_divisor_cases hq (by norm_num) _ hdvd with rfl | hdvd
    · exact pow_ne_one_of_powMod 1627771 3 _ (div_lt_2pow _ _ (by norm_num)) (by norm_num) (by decide)
    rcases prime_divisor_cases hq (by norm_num) _ hdvd with rfl | hdvd
    · exact pow_ne_one_of_powMod 1627771 3 _ (div_lt_2pow _ _ (by norm_num)) (by norm_num) (by decide)
    rcases prime_divisor_cases hq (by norm_num) _ hdvd with rfl | hdvd
    · exact pow_ne_one_of_powMod 1627771 3 _ (div_lt_2pow _ _ (by norm_num)) (by norm_num) (by decide)
    have hqe : q = 1871 := (Nat.prime_dvd_prime_iff_eq hq (by norm_num)).mp (hq.dvd_of_dvd_pow hdvd)
    subst hqe
    exact pow_ne_one_of_powMod 1627771 3 _ (div_lt_2pow _ _ (by norm_num)) (by norm_num) (by decide)

/-- Pratt certificate step: primality of `4681609` via the Lucas test with witness `23`. -/
theorem prime_4681609 : Nat.Prime 4681609 := by
  have hfac : 4681609 - 1 = 2 ^ 3 * (3 ^ 1 * (97 ^ 1 * (2011 ^ 1))) := by norm_num
  apply lucas_primality 4681609 ((23 : Nat) : ZMod 4681609)
  · exact pow_eq_one_of_powMod 4681609 23 (4681609 - 1) (by norm_num) (by norm_num) (by decide)
  · intro q hq hdvd
    rw [hfac] at hdvd
    rcases prime_divisor_cases hq (by norm_num) _ hdvd with rfl | hdvd
    · exact pow_ne_one_of_powMod 4681609 23 _ (div_lt_2pow _ _ (by norm_num)) (by norm_num) (by decide)
    rcases prime_divisor_cases hq (by norm_num) _ hdvd with rfl | hdvd
    · exact pow_ne_one_of_powMod 4681609 23 _ (div_lt_2pow _ _ (by norm_num)) (by norm_num) (by decide)
    rcases prime_divisor_cases hq (by norm_num) _ hdvd with rfl | hdvd
    · exact pow_ne_one_of_powMod 4681609 23 _ (div_lt_2pow _ _ (by norm_num)) (by norm_num) (by decide)
    have hqe : q = 2011 := (Nat.prime_dvd_prime_iff_eq hq (by norm_num)).mp (hq.dvd_of_dvd_pow hdvd)
    subst hqe
    exact pow_ne_one_of_powMod 4681609 23 _ (div_lt_2pow _ _ (by norm_num)) (by norm_num) (by decide)

/-- Pratt certificate step: primality of `44706919` via the Lucas test with witness `6`. -/
theorem prime_44706919 : Nat.Prime 44706919 := by
  have hfac : 44706919 - 1 = 2 ^ 1 * (3 ^ 1 * (797 ^ 1 * (9349 ^ 1))) := by norm_num
  apply lucas_primality 44706919 ((6 : Nat) : ZMod 44706919)
  · exact pow_eq_one_of_powMod 44706919 6 (44706919 - 1) (by norm_num) (by norm_num) (by decide)
  · intro q hq hdvd
    rw [hfac] at hdvd
    rcases prime_divisor_cases hq (by norm_num) _ hdvd with rfl | hdvd
    · exact pow_ne_one_of_powMod 44706919 6 _ (div_lt_2pow _ _ (by norm_num)) (by norm_num) (by decide)
    rcases prime_divisor_cases hq (by norm_num) _ hdvd with rfl | hdvd
    · exact pow_ne_one_of_powMod 44706919 6 _ (div_lt_2pow _ _ (by norm_num)) (by norm_num) (by decide)
    rcases prime_divisor_cases hq (by norm_num) _ hdvd with rfl | hdvd
    · exact pow_ne_one_of_powMod 44706919 6 _ (div_lt_2pow _ _ (by norm_num)) (by norm_num) (by decide)
    have hqe : q = 9349 := (Nat.prime_dvd_prime_iff_eq hq (by norm_num)).mp (hq.dvd_of_dvd_pow hdvd)
    subst hqe
    exact pow_ne_one_of_powMod 44706919 6 _ (div_lt_2pow _ _ (by norm_num)) (by norm_num) (by decide)

/-- Pratt certificate step: primality of `545358713` via the Lucas test with witness `5`. -/
theorem prime_545358713 : Nat.Prime 545358713 := by
  have hfac : 545358713 - 1 = 2 ^ 3 * (41 ^ 1 * (59 ^ 1 * (28181 ^ 1))) := by norm_num
  apply lucas_primality 545358713 ((5 : Nat) : ZMod 545358713)
  · exact pow_eq_one_of_powMod 545358713 5 (545358713 - 1) (by norm_num) (by norm_num) (by decide)
  · intro q hq hdvd
    rw [hfac] at hdvd
    rcases prime_divisor_cases hq (by norm_num) _ hdvd with rfl | hdvd
    · exact pow_ne_one_of_powMod 545358713 5 _ (div_lt_2pow _ _ (by norm_num)) (by norm_num) (by decide)
    rcases prime_divisor_cases hq (by norm_num) _ hdvd with rfl | hdvd
    · exact pow_ne_one_of_powMod 545358713 5 _ (div_lt_2pow _ _ (by norm_num)) (by norm_num) (by decide)
    rcases prime_divisor_cases hq (by norm_num) _ hdvd with rfl | hdvd
    · exact pow_ne_one_of_powMod 545358713 5 _ (div_lt_2pow _ _ (by norm_num)) (by norm_num) (by decide)
    have hqe : q = 28181 := (Nat.prime_dvd_prime_iff_eq hq (by norm_num)).mp (hq.dvd_of_dvd_pow hdvd)
    subst hqe
    exact pow_ne_one_of_powMod 545358713 5 _ (div_lt_2pow _ _ (by norm_num)) (by norm_num) (by decide)
/-- Pratt certificate step: primality of `297159362677` via the Lucas test with witness `2`. -/
theorem prime_q12 : Nat.Prime 297159362677 := by
  have hfac : 297159362677 - 1 = 2 ^ 2 * (3 ^ 2 * (11 ^ 1 * (461 ^ 1 * (1627771 ^ 1)))) := by norm_num
  apply lucas_primality 297159362677 ((2 : Nat) : ZMod 297159362677)
  · exact pow_eq_one_of_powMod 297159362677 2 (297159362677 - 1) (by norm_num) (by norm_num) (by decide)
  · intro q hq hdvd
    rw [hfac] at hdvd
    rcases prime_divisor_cases hq (by norm_num) _ hdvd with rfl | hdvd
    · exact pow_ne_one_of_powMod 297159362677 2 _ (div_lt_2pow _ _ (by norm_num)) (by norm_num) (by decide)
    rcases prime_divisor_cases hq (by norm_num) _ hdvd with rfl | hdvd
    · exact pow_ne_one_of_powMod 297159362677 2 _ (div_lt_2pow _ _ (by norm_num)) (by norm_num) (by decide)
    rcases prime_divisor_cases hq (by norm_num) _ hdvd with rfl | hdvd
    · exact pow_ne_one_of_powMod 297159362677 2 _ (div_lt_2pow _ _ (by norm_num)) (by norm_num) (by decide)
    rcases prime_divisor_cases hq (by norm_num) _ hdvd with rfl | hdvd
    · exact pow_ne_one_of_powMod 297159362677 2 _ (div_lt_2pow _ _ (by norm_num)) (by norm_num) (by decide)
    have hqe : q = 1627771 := (Nat.prime_dvd_prime_iff_eq hq prime_1627771).mp (hq.dvd_of_dvd_pow hdvd)
    subst hqe
    exact pow_ne_one_of_powMod 297159362677 2 _ (div_lt_2pow _ _ (by norm_num)) (by norm_num) (by decide)

/-- Pratt certificate step: primality of `107361793816595537` via the Lucas test with witness `3`. -/
theorem prime_q17 : Nat.Prime 107361793816595537 := by
  have hfac : 107361793816595537 - 1 = 2 ^ 4 * (16699 ^ 1 * (85831 ^ 1 * (4681609 ^ 1))) := by norm_num
  apply lucas_primality 107361793816595537 ((3 : Nat) : ZMod 107361793816595537)
  · exact pow_eq_one_of_powMod 107361793816595537 3 (107361793816595537 - 1) (by norm_num) (by norm_num) (by decide)
  · intro q hq hdvd
    rw [hfac] at hdvd
    rcases prime_divisor_cases hq (by norm_num) _ hdvd with rfl | hdvd
    · exact pow_ne_one_of_powMod 107361793816595537 3 _ (div_lt_2pow _ _ (by norm_num)) (by norm_num) (by decide)
    rcases prime_divisor_cases hq (by norm_num) _ hdvd with rfl | hdvd
    · exact pow_ne_one_of_powMod 107361793816595537 3 _ (div_lt_2pow _ _ (by norm_num)) (by norm_num) (by decide)
    rcases prime_divisor_cases hq (by norm_num) _ hdvd with rfl | hdvd
    · exact pow_ne_one_of_powMod 107361793816595537 3 _ (div_lt_2pow _ _ (by norm_num)) (by norm_num) (by decide)
    have hqe : q = 4681609 := (Nat.prime_dvd_prime_iff_eq hq prime_4681609).mp (hq.dvd_of_dvd_pow hdvd)
    subst hqe
    exact pow_ne_one_of_powMod 107361793816595537 3 _ (div_lt_2pow _ _ (by norm_num)) (by norm_num) (by decide)

/-- Pratt certificate step: primality of `174723607534414371449` via the Lucas test with witness `3`. -/
theorem prime_q20 : Nat.Prime 174723607534414371449 := by
  have hfac : 174723607534414371449 - 1 = 2 ^ 3 * (17 ^ 1 * (59 ^ 1 * (4051 ^ 1 * (120233 ^ 1 * (44706919 ^ 1))))) := by norm_num
  apply lucas_primality 174723607534414371449 ((3 : Nat) : ZMod 174723607534414371449)
  · exact pow_eq_one_of_powMod 174723607534414371449 3 (174723607534414371449 - 1) (by norm_num) (by norm_num) (by decide)
  · intro q hq hdvd
    rw [hfac] at hdvd
    rcases prime_divisor_cases hq (by norm_num) _ hdvd with rfl | hdvd
    · exact pow_ne_one_of_powMod 174723607534414371449 3 _ (div_lt_2pow _ _ (by norm_num)) (by norm_num) (by decide)
    rcases prime_divisor_cases hq (by norm_num) _ hdvd with rfl | hdvd
    · exact pow_ne_one_of_powMod 174723607534414371449 3 _ (div_lt_2pow _ _ (by norm_num)) (by norm_num) (by decide)
    rcases prime_divisor_cases hq (by norm_num) _ hdvd with rfl | hdvd
    · exact pow_ne_one_of_powMod 174723607534414371449 3 _ (div_lt_2pow _ _ (by norm_num)) (by norm_num) (by decide)
    rcases prime_divisor_cases hq (by norm_num) _ hdvd with rfl | hdvd
    · exact pow_ne_one_of_powMod 174723607534414371449 3 _ (div_lt_2pow _ _ (by norm_num)) (by norm_num) (by decide)
    rcases prime_divisor_cases hq (by norm_num) _ hdvd with rfl | hdvd
    · exact pow_ne_one_of_powMod 174723607534414371449 3 _ (div_lt_2pow _ _ (by norm_num)) (by norm_num) (by decide)
    have hqe : q = 44706919 := (Nat.prime_dvd_prime_iff_eq hq prime_44706919).mp (hq.dvd_of_dvd_pow hdvd)
    subst hqe
    exact pow_ne_one_of_powMod 174723607534414371449 3 _ (div_lt_2pow _ _ (by norm_num)) (by norm_num) (by decide)

/-- Pratt certificate step: primality of `29047611873442575647497758179` via the Lucas test with witness `2`. -/
theorem prime_q29 : Nat.Prime 29047611873442575647497758179 := by
  have hfac : 29047611873442575647497758179 - 1 = 2 ^ 1 * (293 ^ 1 * (305873 ^ 1 * (545358713 ^ 1 * (297159362677 ^ 1)))) := by norm_num
  apply lucas_primality 29047611873442575647497758179 ((2 : Nat) : ZMod 29047611873442575647497758179)
  · exact pow_eq_one_of_powMod 29047611873442575647497758179 2 (29047611873442575647497758179 - 1) (by norm_num) (by norm_num) (by decide)
  · intro q hq hdvd
    rw [hfac] at hdvd
    rcases prime_divisor_cases hq (by norm_num) _ hdvd with rfl | hdvd
    · exact pow_ne_one_of_powMod 29047611873442575647497758179 2 _ (div_lt_2pow _ _ (by norm_num)) (by norm_num) (by decide)
    rcases prime_divisor_cases hq (by norm_num) _ hdvd with rfl | hdvd
    · exact pow_ne_one_of_powMod 29047611873442575647497758179 2 _ (div_lt_2pow _ _ (by norm_num)) (by norm_num) (by decide)
    rcases prime_divisor_cases hq (by norm_num) _ hdvd with rfl | hdvd
    · exact pow_ne_one_of_powMod 29047611873442575647497758179 2 _ (div_lt_2pow _ _ (by norm_num)) (by norm_num) (by decide)
    rcases prime_divisor_cases hq prime_545358713 _ hdvd with rfl | hdvd
    · exact pow_ne_one_of_powMod 29047611873442575647497758179 2 _ (div_lt_2pow _ _ (by norm_num)) (by norm_num) (by decide)
    have hqe : q = 297159362677 := (Nat.prime_dvd_prime_iff_eq hq prime_q12).mp (hq.dvd_of_dvd_pow hdvd)
    subst hqe
    exact pow_ne_one_of_powMod 29047611873442575647497758179 2 _ (div_lt_2pow _ _ (by norm_num)) (by norm_num) (by decide)

/-- Pratt certificate step: primality of `341948486974166000522343609283189` via the Lucas test with witness `2`. -/
theorem prime_q33 : Nat.Prime 341948486974166000522343609283189 := by
  have hfac : 341948486974166000522343609283189 - 1 = 2 ^ 2 * (3 ^ 3 * (109 ^ 1 * (29047611873442575647497758179 ^ 1))) := by norm_num
  apply lucas_primality 341948486974166000522343609283189 ((2 : Nat) : ZMod 341948486974166000522343609283189)
  · exact pow_eq_one_of_powMod 341948486974166000522343609283189 2 (341948486974166000522343609283189 - 1) (by norm_num) (by norm_num) (by decide)
  · intro q hq hdvd
    rw [hfac] at hdvd
    rcases prime_divisor_cases hq (by norm_num) _ hdvd with rfl | hdvd
    · exact pow_ne_one_of_powMod 341948486974166000522343609283189 2 _ (div_lt_2pow _ _ (by norm_num)) (by norm_num) (by decide)
    rcases prime_divisor_cases hq (by norm_num) _ hdvd with rfl | hdvd
    · exact pow_ne_one_of_powMod 341948486974166000522343609283189 2 _ (div_lt_2pow _ _ (by norm_num)) (by norm_num) (by decide)
    rcases prime_divisor_cases hq (by norm_num) _ hdvd with rfl | hdvd
    · exact pow_ne_one_of_powMod 341948486974166000522343609283189 2 _ (div_lt_2pow _ _ (by norm_num)) (by norm_num) (by decide)
    have hqe : q = 29047611873442575647497758179 := (Nat.prime_dvd_prime_iff_eq hq prime_q29).mp (hq.dvd_of_dvd_pow hdvd)
    subst hqe
    exact pow_ne_one_of_powMod 341948486974166000522343609283189 2 _ (div_lt_2pow _ _ (by norm_num)) (by norm_num) (by decide)

/-- Pratt certificate step: primality of `scN` via the Lucas test with witness `7`. -/
theorem scN_prime : Nat.Prime scN := by
  have hfac : scN - 1 = 2 ^ 6 * (3 ^ 1 * (149 ^ 1 * (631 ^ 1 * (107361793816595537 ^ 1 * (174723607534414371449 ^ 1 * (341948486974166000522343609283189 ^ 1)))))) := by norm_num [scN]
  apply lucas_primality scN ((7 : Nat) : ZMod scN)
  · exact pow_eq_one_of_powMod scN 7 (scN - 1) (by norm_num [scN]) (by norm_num [scN]) (by decide)
  · intro q hq hdvd
    rw [hfac] at hdvd
    rcases prime_divisor_cases hq (by norm_num) _ hdvd with rfl | hdvd
    · exact pow_ne_one_of_powMod scN 7 _ (div_lt_2pow _ _ (by norm_num [scN])) (by norm_num [scN]) (by decide)
    rcases prime_divisor_cases hq (by norm_num) _ hdvd with rfl | hdvd
    · exact pow_ne_one_of_powMod scN 7 _ (div_lt_2pow _ _ (by norm_num [scN])) (by norm_num [scN]) (by decide)
    rcases prime_divisor_cases hq (by norm_num) _ hdvd with rfl | hdvd
    · exact pow_ne_one_of_powMod scN 7 _ (div_lt_2pow _ _ (by norm_num [scN])) (by norm_num [scN]) (by decide)
    rcases prime_divisor_cases hq (by norm_num) _ hdvd with rfl | hdvd
    · exact pow_ne_one_of_powMod scN 7 _ (div_lt_2pow _ _ (by norm_num [scN])) (by norm_num [scN]) (by decide)
    rcases prime_divisor_cases hq prime_q17 _ hdvd with rfl | hdvd
    · exact pow_ne_one_of_powMod scN 7 _ (div_lt_2pow _ _ (by norm_num [scN])) (by norm_num [scN]) (by decide)
    rcases prime_divisor_cases hq prime_q20 _ hdvd with rfl | hdvd
    · exact pow_ne_one_of_powMod scN 7 _ (div_lt_2pow _ _ (by norm_num [scN])) (by norm_num [scN]) (by decide)
    have hqe : q = 341948486974166000522343609283189 := (Nat.prime_dvd_prime_iff_eq hq prime_q33).mp (hq.dvd_of_dvd_pow hdvd)
    subst hqe
    exact pow_ne_one_of_powMod scN 7 _ (div_lt_2pow _ _ (by norm_num [scN])) (by norm_num [scN]) (by decide)

instance scN_prime_fact : Fact (Nat.Prime scN) := ⟨scN_prime⟩

instance scN_neZero : NeZero scN := ⟨by norm_num [scN]⟩

instance scN_one_lt_fact : Fact (1 < scN) := ⟨by norm_num [scN]⟩

/-!
## Byte-string utilities

Serialized keys, signatures and commitments are modelled as `List Nat` of
byte values; 32-byte big-endian scalar buffers are modelled by the natural
number they encode.
-/

/-- Fixed-width big-endian byte encoding: `bePad k v` is the `k`-byte
big-endian encoding of `v % 256 ^ k`. -/
def bePad : Nat → Nat → List Nat
  | 0, _ => []
  | k + 1, v => bePad k (v / 256) ++ [v % 256]

/-- Big-endian byte decoding. -/
def beDecode (l : List Nat) : Nat := l.foldl (fun acc b => acc * 256 + b) 0

/-- Minimal big-endian byte encoding (no leading zero bytes, `[]` for 0),
with enough fuel for 33-byte integers. -/
def natToBEAux : Nat → Nat → List Nat
  | 0, _ => []
  | fuel + 1, v => if v = 0 then [] else natToBEAux fuel (v / 256) ++ [v % 256]

/-- Minimal big-endian byte encoding of a scalar-sized natural number. -/
def natToBE (v : Nat) : List Nat := natToBEAux 33 v

theorem beDecode_cons (b : Nat) (l : List Nat) :
    beDecode (b :: l) = l.foldl (fun acc c => acc * 256 + c) b := by
  simp [beDecode]

theorem beDecode_foldl_acc (l : List Nat) :
    ∀ a : Nat, l.foldl (fun acc c => acc * 256 + c) a = a * 256 ^ l.length + beDecode l := by
  induction l with
  | nil => intro a; simp [beDecode]
  | cons b t ih =>
    intro a
    simp only [List.foldl_cons, List.length_cons, beDecode]
    rw [ih (a * 256 + b), ih (0 * 256 + b)]
    ring

theorem beDecode_append (l₁ l₂ : List Nat) :
    beDecode (l₁ ++ l₂) = beDecode l₁ * 256 ^ l₂.length + beDecode l₂ := by
  show (l₁ ++ l₂).foldl (fun acc b => acc * 256 + b) 0 = _
  rw [List.foldl_append]
  exact beDecode_foldl_acc l₂ (beDecode l₁)

theorem beDecode_singleton (b : Nat) : beDecode [b] = b := by
  simp [beDecode]

theorem bePad_length (k : Nat) : ∀ v, (bePad k v).length = k := by
  induction k with
  | zero => intro v; simp [bePad]
  | succ k ih => intro v; simp [bePad, ih]

theorem beDecode_bePad (k : Nat) : ∀ v, v < 256 ^ k → beDecode (bePad k v) = v := by
  induction k with
  | zero =>
    intro v hv
    have : v = 0 := by simpa using hv
    simp [bePad, beDecode, this]
  | succ k ih =>
    intro v hv
    have hdiv : v / 256 < 256 ^ k := by
      rw [Nat.div_lt_iff_lt_mul (by norm_num)]
      calc v < 256 ^ (k + 1) := hv
        _ = 256 ^ k * 256 := by ring
    simp only [bePad, beDecode_append, beDecode_singleton, List.length_singleton, pow_one]
    rw [ih (v / 256) hdiv]
    omega

theorem beDecode_natToBEAux (fuel : Nat) :
    ∀ v, v < 256 ^ fuel → beDecode (natToBEAux fuel v) = v := by
  induction fuel with
  | zero =>
    intro v hv
    have : v = 0 := by simpa using hv
    simp [natToBEAux, beDecode, this]
  | succ fuel ih =>
    intro v hv
    by_cases h0 : v = 0
    · simp [natToBEAux, h0, beDecode]
    · have hdiv : v / 256 < 256 ^ fuel := by
        rw [Nat.div_lt_iff_lt_mul (by norm_num)]
        calc v < 256 ^ (fuel + 1) := hv
          _ = 256 ^ fuel * 256 := by ring
      simp only [natToBEAux, h0, if_false, beDecode_append, beDecode_singleton,
        List.length_singleton, pow_one]
      rw [ih (v / 256) hdiv]
      omega

theorem natToBEAux_ne_nil (fuel : Nat) :
    ∀ v, 0 < v → v < 256 ^ fuel → natToBEAux fuel v ≠ [] := by
  intro v hv hlt
  cases fuel with
  | zero => omega
  | succ fuel =>
    simp only [natToBEAux, Nat.pos_iff_ne_zero.mp hv, if_false]
    intro hcon
    exact List.append_ne_nil_of_right_ne_nil _ (by simp) hcon

theorem headD_append_of_ne_nil {l t : List Nat} (h : l ≠ []) :
    (l ++ t).headD 0 = l.headD 0 := by
  cases l with
  | nil => exact absurd rfl h
  | cons a l => simp

theorem natToBEAux_headD_ne_zero (fuel : Nat) :
    ∀ v, 0 < v → v < 256 ^ fuel → (natToBEAux fuel v).headD 0 ≠ 0 := by
  induction fuel with
  | zero => intro v hv hlt; omega
  | succ fuel ih =>
    intro v hv hlt
    simp only [natToBEAux, Nat.pos_iff_ne_zero.mp hv, if_false]
    by_cases hsmall : v / 256 = 0
    · have hnil : natToBEAux fuel (v / 256) = [] := by
        cases fuel with
        | zero => simp [natToBEAux]
        | succ fuel => simp [natToBEAux, hsmall]
      rw [hnil, List.nil_append]
      have hvv : v % 256 = v := by omega
      simp only [List.headD_cons, hvv]
      omega
    · have hdiv : v / 256 < 256 ^ fuel := by
        rw [Nat.div_lt_iff_lt_mul (by norm_num)]
        calc v < 256 ^ (fuel + 1) := hlt
          _ = 256 ^ fuel * 256 := by ring
      rw [headD_append_of_ne_nil (natToBEAux_ne_nil fuel (v / 256) (by omega) hdiv)]
      exact ih (v / 256) (by omega) hdiv

/-!
## Scalar model

`scalar_impl.h` is not part of the sources; the scalar operations below are
modelled from the spec (§4.2): integers mod the group order `scN`, always
canonical, with 32-byte big-endian conversion reporting overflow.
-/

/-- Scalars: integers in `[0, n)`, always canonical (spec §Data model). -/
abbrev Scalar := ZMod scN

/-- Points of the secp256k1 group.  Modelled from the spec: the group
generated by `G` has prime order `n`, so it is cyclic; a point is represented
by its discrete logarithm base `G` (an element of `ZMod scN`), with `0`
playing the role of the point at infinity and `1` of `G` itself. -/
abbrev Point := ZMod scN

/-- Modelled from the spec: `secp256k1_scalar_set_b32` (from the missing
`scalar_impl.h`).  Reads a 32-byte big-endian buffer (modelled as the natural
number it encodes), reduces it mod `n`, and reports overflow. -/
def secp256k1_scalar_set_b32 (b : Nat) : Scalar × Bool :=
  ((b : Scalar), decide (scN ≤ b))

/-- Modelled from the spec: `secp256k1_scalar_get_b32` — the canonical
32-byte big-endian encoding of a scalar, modelled as the natural number it
encodes. -/
def secp256k1_scalar_get_b32 (s : Scalar) : Nat := s.val

/-- Modelled from the spec: `secp256k1_scalar_is_high` — whether a scalar is
at least `⌈n/2⌉`. -/
def secp256k1_scalar_is_high (s : Scalar) : Bool := decide ((scN + 1) / 2 ≤ s.val)

/-- Modelled from the spec: `secp256k1_scalar_inverse` — Fermat inversion,
exponentiation by `n - 2`. -/
def secp256k1_scalar_inverse (s : Scalar) : Scalar :=
  ((powMod scN s.val (scN - 2) : Nat) : Scalar)

/-!
## Group and context model

`group_impl.h`, `ecmult_impl.h`, `ecmult_gen_impl.h` are not part of the
sources; the group operations are modelled from the spec in the discrete-log
representation above, where point addition is addition in `ZMod scN` and
scalar multiplication is ring multiplication.
-/

/-- The context.  Of the four sub-contexts only the `ecmult_gen2` table
(which determines the second generator H of the commitment scheme) is
observable in the modelled results; it is carried as a field, so all theorems
below hold for every choice of H.  Modelled from the spec: H is a fixed
"nothing-up-my-sleeve" generator independent of G. -/
structure Ctx where
  hGen : Point

/-- Modelled from the spec: `secp256k1_ecmult_gen` — constant-time
multiplication `s·G` of the fixed generator.  The DPA blinding described by
the spec cancels in the result and is invisible here. -/
def secp256k1_ecmult_gen (_ctx : Ctx) (s : Scalar) : Point := s

/-- Modelled from the spec: `secp256k1_ecmult` — the variable-base
computation `a·A + b·G` used by verification. -/
def secp256k1_ecmult (_ctx : Ctx) (A : Point) (a b : Scalar) : Point := a * A + b

/-- Modelled from the spec: `secp256k1_ecmult_gen_gen2` — `sec·G + value·H`
for a 64-bit value (the Pedersen commit computation). -/
def secp256k1_ecmult_gen_gen2 (ctx : Ctx) (sec : Scalar) (value : Nat) : Point :=
  sec + (value : Scalar) * ctx.hGen

/-- Modelled from the spec: `secp256k1_ecmult_gen2_small` — `value·H`. -/
def secp256k1_ecmult_gen2_small (ctx : Ctx) (value : Nat) : Point :=
  (value : Scalar) * ctx.hGen

/-- Modelled from the spec: the affine x-coordinate of a point, used as the
ECDSA `r` after reduction mod `n`.  In the discrete-log model the canonical
representative shared by `P` and `-P` plays the role of the x-coordinate
(x-coordinates on the curve are invariant under negation). -/
def pointX (P : Point) : Nat := min P.val (scN - P.val)

/-- Modelled from the spec: the parity bit of the affine y-coordinate, which
distinguishes `P` from `-P` given their common x-coordinate. -/
def pointParity (P : Point) : Nat := if P.val ≤ scN - P.val then 0 else 1

/-!
## Public-key wire format

`eckey_impl.h` is not part of the sources; parse/serialize are modelled from
the spec (§4.8, §6): compressed keys are `0x02/0x03 ‖ x` (33 bytes),
uncompressed `0x04 ‖ x ‖ y` (65 bytes), hybrid `0x06/0x07 ‖ x ‖ y` with a
parity check; serialization fails on the point at infinity, parsing rejects
encodings that do not denote a valid curve point.
-/

/-- Modelled from the spec: `secp256k1_eckey_pubkey_serialize`. -/
def secp256k1_eckey_pubkey_serialize (P : Point) (compressed : Bool) : Option (List Nat) :=
  if P = 0 then none
  else if compressed then some ((2 + pointParity P) :: bePad 32 (pointX P))
  else some (4 :: (bePad 32 (pointX P) ++ bePad 32 P.val))

/-- Modelled from the spec: `secp256k1_eckey_pubkey_parse`.  In the
discrete-log model a compressed x-coordinate is valid iff it is the canonical
representative of a nonzero point, and an uncompressed y determines the point
directly (subject to the x- and parity-consistency checks the C code makes by
reconstructing or validating y). -/
def secp256k1_eckey_pubkey_parse (l : List Nat) : Option Point :=
  match l with
  | [] => none
  | h :: rest =>
    if (h = 2 ∨ h = 3) ∧ rest.length = 32 then
      let x := beDecode rest
      if 0 < x ∧ 2 * x < scN then
        some (if h = 2 then (x : Scalar) else -(x : Scalar))
      else none
    else if (h = 4 ∨ h = 6 ∨ h = 7) ∧ rest.length = 64 then
      let x := beDecode (rest.take 32)
      let y := beDecode (rest.drop 32)
      if 0 < y ∧ y < scN ∧ x = pointX ((y : Nat) : Scalar) ∧
          (h = 6 → pointParity ((y : Nat) : Scalar) = 0) ∧
          (h = 7 → pointParity ((y : Nat) : Scalar) = 1) then
        some ((y : Nat) : Scalar)
      else none
    else none

/-!
## DER signature encoding

`ecdsa_impl.h` is not part of the sources; the DER serialization and its
strict canonical parser are modelled from the spec (§4.7): an outer SEQUENCE
of two INTEGERs, minimal length, a single leading zero only to disambiguate
sign, short-form lengths.
-/

/-- An ECDSA signature: a pair of scalars (spec §Data model). -/
structure Sig where
  r : Scalar
  s : Scalar
deriving DecidableEq

/-- The minimal DER content bytes of a nonnegative integer (`[0]` for 0). -/
def derMinimalBytes (v : Nat) : List Nat :=
  if v = 0 then [0] else natToBE v

/-- The DER INTEGER payload: minimal bytes, plus one leading zero byte when
the top bit would otherwise indicate a negative number. -/
def derIntPayload (v : Nat) : List Nat :=
  let b := derMinimalBytes v
  if 128 ≤ b.headD 0 then 0 :: b else b

/-- A full DER INTEGER: tag `0x02`, short-form length, payload. -/
def derInt (v : Nat) : List Nat :=
  let b := derIntPayload v
  2 :: b.length :: b

/-- Modelled from the spec: `secp256k1_ecdsa_sig_serialize` — DER-encodes
`(r, s)`; fails (returning none, the C code returns 0) when the encoding does
not fit in the caller's buffer of size `siglen`. -/
def secp256k1_ecdsa_sig_serialize (sig : Sig) (siglen : Nat) : Option (List Nat) :=
  let ri := derInt sig.r.val
  let si := derInt sig.s.val
  let full := 48 :: (ri.length + si.length) :: (ri ++ si)
  if full.length ≤ siglen then some full else none

/-- Strict parse of one DER INTEGER, returning the value and remaining
bytes.  Rejects empty, padded, or negative (top bit set) contents. -/
def derIntParse (l : List Nat) : Option (Nat × List Nat) :=
  match l with
  | t :: len :: rest =>
    if t = 2 then
      if len = 0 then none
      else if rest.length < len then none
      else
        let b := rest.take len
        if 128 ≤ b.headD 0 then none
        else if 2 ≤ len ∧ b.headD 0 = 0 ∧ b.tail.headD 0 < 128 then none
        else some (beDecode b, rest.drop len)
    else none
  | _ => none

/-- Modelled from the spec: `secp256k1_ecdsa_sig_parse` — strict canonical
DER parse of a SEQUENCE of two INTEGERs, rejecting trailing bytes and
out-of-range scalars. -/
def secp256k1_ecdsa_sig_parse (l : List Nat) : Option Sig :=
  match l with
  | t :: len :: rest =>
    if t = 48 ∧ len = rest.length then
      match derIntParse rest with
      | some (r, rest2) =>
        match derIntParse rest2 with
        | some (s, rest3) =>
          if rest3 = [] ∧ r < scN ∧ s < scN then
            some ⟨((r : Nat) : Scalar), ((s : Nat) : Scalar)⟩
          else none
        | none => none
      | none => none
    else none
  | _ => none

/-!
## ECDSA core

`ecdsa_impl.h` is not part of the sources; `sig_sign` and `sig_verify` are
modelled from the spec (§4.7).
-/

/-- Modelled from the spec: `secp256k1_ecdsa_sig_sign` — computes
`R = k·G`, `r = R.x mod n`, `s = k⁻¹(m + r·d)`, fails (for the caller to
retry with the next nonce) when `r` or `s` is zero, and normalizes `s` to
the lower half-range. -/
def secp256k1_ecdsa_sig_sign (ctx : Ctx) (sec msg non : Scalar) : Option Sig :=
  let R := secp256k1_ecmult_gen ctx non
  let r : Scalar := ((pointX R : Nat) : Scalar)
  if r = 0 then none
  else
    let s0 := secp256k1_scalar_inverse non * (msg + r * sec)
    if s0 = 0 then none
    else some ⟨r, if secp256k1_scalar_is_high s0 then -s0 else s0⟩

/-- Modelled from the spec: `secp256k1_ecdsa_sig_verify` — rejects zero or
high `s` and zero `r`, computes `R = u₁·G + u₂·Q` with `u₁ = m·s⁻¹`,
`u₂ = r·s⁻¹`, rejects the point at infinity and accepts iff
`R.x mod n = r`.  (The driver's own header documents that verification does
not accept high-S signatures.) -/
def secp256k1_ecdsa_sig_verify (ctx : Ctx) (sig : Sig) (q : Point) (msg : Scalar) : Bool :=
  if sig.r = 0 ∨ sig.s = 0 then false
  else if secp256k1_scalar_is_high sig.s then false
  else
    let sn := secp256k1_scalar_inverse sig.s
    let u1 := sn * msg
    let u2 := sn * sig.r
    let R := secp256k1_ecmult ctx q u2 u1
    if R = 0 then false else decide (((pointX R : Nat) : Scalar) = sig.r)

/-!
## Driver entry points (from `src/secp256k1.c`)

The definitions below mirror the control flow of the driver file itself.
-/

/-- The type of nonce functions: `(msg32, key32, attempt) ↦ nonce32`, with
`none` modelling a 0 return (nonce source refusing). -/
abbrev NonceFunction := Nat → Nat → Nat → Option Nat

/-- Modelled from the spec: `nonce_function_rfc6979` consumes the RFC6979
HMAC-SHA256 stream, which the spec treats as a black-box deterministic oracle
of the message, key and attempt counter (`hash_impl.h` is not part of the
sources).  Only its determinism and totality (the driver's wrapper always
returns 1) are relevant to the claims; the concrete mixing below is an
arbitrary stand-in for the opaque hash. -/
def secp256k1_nonce_function_rfc6979 : NonceFunction :=
  fun msg32 key32 attempt => some ((msg32 + key32 * 65537 + attempt + 1) % 2 ^ 256)

/-- The default nonce function equals the RFC6979 one (driver line 118). -/
def secp256k1_nonce_function_default : NonceFunction := secp256k1_nonce_function_rfc6979

/-- The nonce-retry loop shared by the signing entry points of the driver:
call the nonce function with an incrementing counter, skip nonces that are
zero or overflow, and stop at the first successful `sig_sign`.  The `fuel`
argument bounds the number of iterations of the (unbounded) C loop; all
results are conditioned on the loop having terminated with a signature. -/
def secp256k1_ecdsa_sign_loop (ctx : Ctx) (noncefp : NonceFunction)
    (msg32 seckey : Nat) (sec msg : Scalar) : Nat → Nat → Option Sig
  | _, 0 => none
  | count, fuel + 1 =>
    match noncefp msg32 seckey count with
    | none => none
    | some nonce32 =>
      let nonovf := secp256k1_scalar_set_b32 nonce32
      if ¬ nonovf.1 = 0 ∧ nonovf.2 = false then
        match secp256k1_ecdsa_sig_sign ctx sec msg nonovf.1 with
        | some sig => some sig
        | none => secp256k1_ecdsa_sign_loop ctx noncefp msg32 seckey sec msg (count + 1) fuel
      else secp256k1_ecdsa_sign_loop ctx noncefp msg32 seckey sec msg (count + 1) fuel

/-- Model of `secp256k1_ecdsa_sign` (driver lines 120-166): fail on an
overflowing or zero secret key, run the nonce-retry loop from counter 0, and
DER-serialize the resulting signature into the caller's buffer. -/
def secp256k1_ecdsa_sign (ctx : Ctx) (noncefp : NonceFunction) (fuel : Nat)
    (msg32 seckey siglen : Nat) : Option (List Nat) :=
  let secovf := secp256k1_scalar_set_b32 seckey
  if secovf.2 = false ∧ ¬ secovf.1 = 0 then
    let msg := (secp256k1_scalar_set_b32 msg32).1
    match secp256k1_ecdsa_sign_loop ctx noncefp msg32 seckey secovf.1 msg 0 fuel with
    | some sig => secp256k1_ecdsa_sig_serialize sig siglen
    | none => none
  else none

/-- Model of `secp256k1_ecdsa_verify` (driver lines 75-104), including its
initial `ret = -3` dead value: `1` valid, `0` invalid signature, `-1` bad
public key, `-2` bad signature encoding. -/
def secp256k1_ecdsa_verify (ctx : Ctx) (msg32 : Nat) (sig pubkey : List Nat) : Int :=
  let m : Scalar := (secp256k1_scalar_set_b32 msg32).1
  let _ret : Int := -3
  match secp256k1_eckey_pubkey_parse pubkey with
  | some q =>
    match secp256k1_ecdsa_sig_parse sig with
    | some s => if secp256k1_ecdsa_sig_verify ctx s q m then 1 else 0
    | none => -2
  | none => -1

/-- Model of `secp256k1_ec_pubkey_create` (driver lines 293-316): fail on an
overflowing secret key, multiply the generator, serialize (which fails for
the zero key, whose public point is infinity). -/
def secp256k1_ec_pubkey_create (ctx : Ctx) (seckey : Nat) (compressed : Bool) :
    Option (List Nat) :=
  let secovf := secp256k1_scalar_set_b32 seckey
  if secovf.2 = false then
    secp256k1_eckey_pubkey_serialize (secp256k1_ecmult_gen ctx secovf.1) compressed
  else none

/-!
## The newer opaque-object API (the `ex` section of the driver)
-/

/-- Model of `secp256k1_ecdsa_signature_save`: the 64-byte opaque signature
object.  The portable branch of the C code stores the 32-byte big-endian
encodings of `r` and `s`, which is what we model (the memcpy fast path is a
non-portable layout optimization). -/
def secp256k1_ecdsa_signature_save (sig : Sig) : List Nat :=
  bePad 32 sig.r.val ++ bePad 32 sig.s.val

/-- Model of `secp256k1_ecdsa_signature_load`: read the two halves back with
`scalar_set_b32` (overflow discarded, matching the NULL overflow pointer). -/
def secp256k1_ecdsa_signature_load (l : List Nat) : Sig :=
  ⟨(secp256k1_scalar_set_b32 (beDecode (l.take 32))).1,
   (secp256k1_scalar_set_b32 (beDecode (l.drop 32))).1⟩

/-- Model of `secp256k1_pubkey_save`: the 64-byte opaque public-key object
holding the affine coordinates of the point (storage form). -/
def secp256k1_pubkey_save (P : Point) : List Nat :=
  bePad 32 (pointX P) ++ bePad 32 P.val

/-- Model of `secp256k1_pubkey_load`: recover the group element from the
64-byte object.  The `ARG_CHECK(x ≠ 0)` of the C code (which aborts a debug
build) is modelled as the returned flag. -/
def secp256k1_pubkey_load (l : List Nat) : Bool × Point :=
  (decide (¬ beDecode (l.take 32) = 0),
   (secp256k1_scalar_set_b32 (beDecode (l.drop 32))).1)

/-- Model of `secp256k1_ecdsa_sign_ex` (driver lines 729-775): like
`secp256k1_ecdsa_sign` but saving `(r, s)` into an opaque signature object;
on failure the object is zeroed. -/
def secp256k1_ecdsa_sign_ex (ctx : Ctx) (noncefp : NonceFunction) (fuel : Nat)
    (msg32 seckey : Nat) : Bool × List Nat :=
  let secovf := secp256k1_scalar_set_b32 seckey
  if secovf.2 = false ∧ ¬ secovf.1 = 0 then
    let msg := (secp256k1_scalar_set_b32 msg32).1
    match secp256k1_ecdsa_sign_loop ctx noncefp msg32 seckey secovf.1 msg 0 fuel with
    | some sig => (true, secp256k1_ecdsa_signature_save sig)
    | none => (false, List.replicate 64 0)
  else (false, List.replicate 64 0)

/-- Model of `secp256k1_ecdsa_verify_ex` (driver lines 867-882): the int
result is the conjunction `!is_high(s) && pubkey_load && sig_verify`,
modelled as a `Bool` (`true` is the C result 1). -/
def secp256k1_ecdsa_verify_ex (ctx : Ctx) (sigobj : List Nat) (msg32 : Nat)
    (pubkeyobj : List Nat) : Bool :=
  let m := (secp256k1_scalar_set_b32 msg32).1
  let sig := secp256k1_ecdsa_signature_load sigobj
  let okq := secp256k1_pubkey_load pubkeyobj
  !secp256k1_scalar_is_high sig.s && okq.1 && secp256k1_ecdsa_sig_verify ctx sig okq.2 m

/-!
## Key tweaking
-/

/-- Modelled from the spec: `secp256k1_eckey_privkey_tweak_add` — replaces
`d` by `d + t mod n`, failing when the result is zero (the `t ≥ n` failure
belongs to the caller's overflow check). -/
def secp256k1_eckey_privkey_tweak_add (sec term : Scalar) : Option Scalar :=
  if sec + term = 0 then none else some (sec + term)

/-- Model of `secp256k1_ec_privkey_tweak_add` (driver lines 331-352): the
tweak is range-checked, the secret key is read without overflow check; the
new key is written back only on success.  Returns the C result together with
the final contents of the seckey buffer. -/
def secp256k1_ec_privkey_tweak_add (seckey tweak : Nat) : Bool × Nat :=
  let termovf := secp256k1_scalar_set_b32 tweak
  let sec := (secp256k1_scalar_set_b32 seckey).1
  match secp256k1_eckey_privkey_tweak_add sec termovf.1 with
  | some sec2 => if termovf.2 = false then (true, secp256k1_scalar_get_b32 sec2) else (false, seckey)
  | none => (false, seckey)

/-- Modelled from the spec: `secp256k1_eckey_pubkey_tweak_add` — replaces
`Q` by `Q + t·G`, failing when the result is the point at infinity. -/
def secp256k1_eckey_pubkey_tweak_add (_ctx : Ctx) (P : Point) (term : Scalar) : Option Point :=
  if P + term = 0 then none else some (P + term)

/-- Model of `secp256k1_ec_pubkey_tweak_add_ex` (driver lines 884-906): the
64-byte pubkey object is zeroed before the tweaked point is (possibly)
saved, so every failure leaves it all zero.  Returns the C result together
with the final contents of the pubkey object. -/
def secp256k1_ec_pubkey_tweak_add_ex (ctx : Ctx) (pubkeyobj : List Nat) (tweak : Nat) :
    Bool × List Nat :=
  let termovf := secp256k1_scalar_set_b32 tweak
  let okp := secp256k1_pubkey_load pubkeyobj
  if termovf.2 = false ∧ okp.1 = true then
    match secp256k1_eckey_pubkey_tweak_add ctx okp.2 termovf.1 with
    | some p2 => (true, secp256k1_pubkey_save p2)
    | none => (false, List.replicate 64 0)
  else (false, List.replicate 64 0)

/-!
## Pedersen commitments
-/

/-- Model of `secp256k1_pedersen_commit` (driver lines 466-491): fail on an
overflowing blinding factor or a commitment to the point at infinity,
otherwise serialize `blind·G + value·H` with the ordinary compressed
public-key serializer (`compressed = 1`, a 33-byte buffer). -/
def secp256k1_pedersen_commit (ctx : Ctx) (blind value : Nat) : Option (List Nat) :=
  let secovf := secp256k1_scalar_set_b32 blind
  if secovf.2 = false then
    let rj := secp256k1_ecmult_gen_gen2 ctx secovf.1 value
    if rj = 0 then none
    else secp256k1_eckey_pubkey_serialize rj true
  else none

/-- The loop of `secp256k1_pedersen_blind_sum`: fold the blinds, negating
those at positions `≥ npositive`, failing at the first overflow. -/
def secp256k1_pedersen_blind_sum_loop (npositive : Nat) :
    Scalar → Nat → List Nat → Option Scalar
  | acc, _, [] => some acc
  | acc, i, b :: rest =>
    let xovf := secp256k1_scalar_set_b32 b
    if xovf.2 = true then none
    else
      secp256k1_pedersen_blind_sum_loop npositive
        (acc + (if npositive ≤ i then -xovf.1 else xovf.1)) (i + 1) rest

/-- Model of `secp256k1_pedersen_blind_sum` (driver lines 496-519). -/
def secp256k1_pedersen_blind_sum (_ctx : Ctx) (blinds : List Nat) (npositive : Nat) :
    Option Nat :=
  (secp256k1_pedersen_blind_sum_loop npositive 0 0 blinds).map secp256k1_scalar_get_b32

/-- Model of `secp256k1_sign_and_abs64` from the missing `util.h`; the
driver's own comment documents it: take the absolute value, report whether
the input was negative. -/
def secp256k1_sign_and_abs64 (x : Int) : Nat × Bool := (x.natAbs, decide (x < 0))

/-- The parse-and-accumulate loop of `secp256k1_pedersen_verify_tally`:
parse each 33-byte commitment and add it to the accumulator, failing at the
first parse error. -/
def secp256k1_pedersen_tally_add (acc : Point) : List (List Nat) → Option Point
  | [] => some acc
  | c :: rest =>
    match secp256k1_eckey_pubkey_parse c with
    | none => none
    | some p => secp256k1_pedersen_tally_add (acc + p) rest

/-- Model of `secp256k1_pedersen_verify_tally` (driver lines 521-555):
start from `excess·H` (negating for a negative excess), add the negative
commitments, negate, add the positive commitments, and return 1 iff the
result is the point at infinity; return 0 if any commitment fails to
parse. -/
def secp256k1_pedersen_verify_tally (ctx : Ctx) (commits ncommits : List (List Nat))
    (excess : Int) : Int :=
  let acc0 : Point :=
    if excess = 0 then 0
    else
      let exneg := secp256k1_sign_and_abs64 excess
      let a := secp256k1_ecmult_gen2_small ctx exneg.1
      if exneg.2 then -a else a
  match secp256k1_pedersen_tally_add acc0 ncommits with
  | none => 0
  | some acc1 =>
    match secp256k1_pedersen_tally_add (-acc1) commits with
    | none => 0
    | some acc2 => if acc2 = 0 then 1 else 0

/-!
## Scalar and point lemmas
-/

theorem scN_odd : scN % 2 = 1 := by decide

theorem secp256k1_scalar_inverse_eq_inv (s : Scalar) : secp256k1_scalar_inverse s = s⁻¹ := by
  unfold secp256k1_scalar_inverse
  rw [powMod_cast scN s.val (scN - 2) (by norm_num [scN]), ZMod.natCast_rightInverse s]
  by_cases hs : s = 0
  · subst hs
    rw [zero_pow (by norm_num [scN]), inv_zero]
  · have h1 : s ^ (scN - 2) * s = 1 := by
      have h2 : s ^ (scN - 2) * s = s ^ (scN - 1) := by
        rw [← pow_succ]
        congr 1
      rw [h2]
      exact ZMod.pow_card_sub_one_eq_one hs
    exact eq_inv_of_mul_eq_one_left h1

theorem scalar_val_pos_of_ne_zero {s : Scalar} (hs : s ≠ 0) : 0 < s.val := by
  rcases Nat.eq_zero_or_pos s.val with h | h
  · exact absurd ((ZMod.val_eq_zero s).mp h) hs
  · exact h

theorem secp256k1_scalar_is_high_neg {s : Scalar} (hs : s ≠ 0)
    (h : secp256k1_scalar_is_high s = true) : secp256k1_scalar_is_high (-s) = false := by
  unfold secp256k1_scalar_is_high at h ⊢
  rw [ZMod.neg_val, if_neg hs]
  simp only [decide_eq_true_eq] at h
  simp only [decide_eq_false_iff_not, not_le]
  have hvl : s.val < scN := ZMod.val_lt s
  have hodd := scN_odd
  omega

theorem sig_s_not_high (s0 : Scalar) (hs0 : s0 ≠ 0) :
    secp256k1_scalar_is_high (if secp256k1_scalar_is_high s0 then -s0 else s0) = false := by
  by_cases h : secp256k1_scalar_is_high s0 = true
  · rw [if_pos h]
    exact secp256k1_scalar_is_high_neg hs0 h
  · rw [if_neg h]
    exact Bool.eq_false_iff.mpr h

theorem pointX_neg (P : Point) : pointX (-P) = pointX P := by
  unfold pointX
  by_cases hP : P = 0
  · subst hP; simp
  · rw [ZMod.neg_val, if_neg hP]
    have h1 : P.val < scN := ZMod.val_lt P
    have h2 : 0 < P.val := scalar_val_pos_of_ne_zero hP
    omega

theorem pointX_pos {P : Point} (hP : P ≠ 0) : 0 < pointX P := by
  unfold pointX
  have h1 : P.val < scN := ZMod.val_lt P
  have h2 : 0 < P.val := scalar_val_pos_of_ne_zero hP
  omega

theorem pointX_two_mul_lt {P : Point} (hP : P ≠ 0) : 2 * pointX P < scN := by
  unfold pointX
  have h1 : P.val < scN := ZMod.val_lt P
  have h2 : 0 < P.val := scalar_val_pos_of_ne_zero hP
  have hodd := scN_odd
  omega

theorem pointX_lt (P : Point) : pointX P < scN := by
  unfold pointX
  have h1 : P.val < scN := ZMod.val_lt P
  omega

theorem pointX_cast_ne_zero {P : Point} (hP : P ≠ 0) :
    ((pointX P : Nat) : Scalar) ≠ 0 := by
  intro hcon
  have hval : ((pointX P : Nat) : Scalar).val = pointX P := ZMod.val_cast_of_lt (pointX_lt P)
  rw [hcon, ZMod.val_zero] at hval
  exact absurd hval.symm (Nat.pos_iff_ne_zero.mp (pointX_pos hP))

theorem natCast_val_self (P : Scalar) : ((P.val : Nat) : Scalar) = P :=
  ZMod.natCast_rightInverse P

theorem natCast_scN_sub_val (P : Scalar) : ((scN - P.val : Nat) : Scalar) = -P := by
  have hle : P.val ≤ scN := le_of_lt (ZMod.val_lt P)
  rw [Nat.cast_sub hle, ZMod.natCast_self, natCast_val_self, zero_sub]

theorem scN_lt_byte32 : scN < 256 ^ 32 := by norm_num [scN]

theorem take_append_len {l₁ l₂ : List Nat} {n : Nat} (h : l₁.length = n) :
    (l₁ ++ l₂).take n = l₁ := by
  rw [List.take_append_of_le_length (by omega), List.take_of_length_le (by omega)]

theorem drop_append_len {l₁ l₂ : List Nat} {n : Nat} (h : l₁.length = n) :
    (l₁ ++ l₂).drop n = l₂ := by
  rw [List.drop_append_of_le_length (by omega), List.drop_of_length_le (by omega),
    List.nil_append]

/-- Serialize-then-parse of a public key recovers the point (spec §8,
"Curve closure"). -/
theorem secp256k1_eckey_pubkey_parse_serialize (P : Point) (compressed : Bool) (l : List Nat)
    (h : secp256k1_eckey_pubkey_serialize P compressed = some l) :
    secp256k1_eckey_pubkey_parse l = some P := by
  unfold secp256k1_eckey_pubkey_serialize at h
  by_cases hP : P = 0
  · simp [hP] at h
  rw [if_neg hP] at h
  have hvlt : P.val < scN := ZMod.val_lt P
  have hvpos : 0 < P.val := scalar_val_pos_of_ne_zero hP
  have hxlt256 : pointX P < 256 ^ 32 := lt_trans (pointX_lt P) scN_lt_byte32
  have hdecx : beDecode (bePad 32 (pointX P)) = pointX P := beDecode_bePad 32 _ hxlt256
  have hdecy : beDecode (bePad 32 P.val) = P.val :=
    beDecode_bePad 32 _ (lt_trans hvlt scN_lt_byte32)
  have hxpos : 0 < pointX P := pointX_pos hP
  have hx2 : 2 * pointX P < scN := pointX_two_mul_lt hP
  cases compressed with
  | false =>
    simp only [Bool.false_eq_true, if_false, Option.some.injEq] at h
    subst h
    have htake : (bePad 32 (pointX P) ++ bePad 32 P.val).take 32 = bePad 32 (pointX P) :=
      take_append_len (bePad_length 32 _)
    have hdrop : (bePad 32 (pointX P) ++ bePad 32 P.val).drop 32 = bePad 32 P.val :=
      drop_append_len (bePad_length 32 _)
    have hlen : (bePad 32 (pointX P) ++ bePad 32 P.val).length = 64 := by
      simp [bePad_length]
    simp only [secp256k1_eckey_pubkey_parse]
    rw [if_neg (by simp)]
    rw [if_pos ⟨by norm_num, hlen⟩]
    simp only [htake, hdrop, hdecx, hdecy, natCast_val_self]
    rw [if_pos ⟨hvpos, hvlt, by trivial, fun hc => absurd hc (by norm_num),
      fun hc => absurd hc (by norm_num)⟩]
  | true =>
    simp only [if_true, Option.some.injEq] at h
    subst h
    unfold pointParity
    by_cases hpar : P.val ≤ scN - P.val
    · rw [if_pos hpar]
      have hxv : pointX P = P.val := Nat.min_eq_left hpar
      simp only [secp256k1_eckey_pubkey_parse]
      rw [if_pos ⟨by norm_num, bePad_length 32 _⟩]
      simp only [hdecx]
      rw [if_pos ⟨hxpos, hx2⟩]
      rw [if_pos (by norm_num)]
      rw [hxv, natCast_val_self]
    · rw [if_neg hpar]
      have hxv : pointX P = scN - P.val := Nat.min_eq_right (by omega)
      simp only [secp256k1_eckey_pubkey_parse]
      rw [if_pos ⟨by norm_num, bePad_length 32 _⟩]
      simp only [hdecx]
      rw [if_pos ⟨hxpos, hx2⟩]
      rw [if_neg (by norm_num)]
      rw [hxv, natCast_scN_sub_val, neg_neg]

/-!
## DER round-trip
-/

theorem beDecode_cons_zero (l : List Nat) : beDecode (0 :: l) = beDecode l := by
  simp [beDecode]

theorem derIntPayload_facts (v : Nat) (hv : v < 256 ^ 33) :
    derIntPayload v ≠ [] ∧ (derIntPayload v).headD 0 < 128 ∧
    ¬(2 ≤ (derIntPayload v).length ∧ (derIntPayload v).headD 0 = 0 ∧
        (derIntPayload v).tail.headD 0 < 128) ∧
    beDecode (derIntPayload v) = v := by
  unfold derIntPayload derMinimalBytes
  by_cases h0 : v = 0
  · subst h0
    norm_num [beDecode]
  · simp only [h0, if_false]
    have hpos : 0 < v := by omega
    have hne : natToBE v ≠ [] := natToBEAux_ne_nil 33 v hpos hv
    have hhead : (natToBE v).headD 0 ≠ 0 := natToBEAux_headD_ne_zero 33 v hpos hv
    have hdec : beDecode (natToBE v) = v := beDecode_natToBEAux 33 v hv
    by_cases hhi : 128 ≤ (natToBE v).headD 0
    · rw [if_pos hhi]
      refine ⟨by simp, by simp, ?_, by rw [beDecode_cons_zero, hdec]⟩
      intro hcon
      rcases hcon with ⟨_, _, h3⟩
      rw [List.tail_cons] at h3
      omega
    · rw [if_neg hhi]
      exact ⟨hne, by omega, fun hcon => hhead hcon.2.1, hdec⟩

theorem derIntParse_derInt (v : Nat) (hv : v < 256 ^ 33) (tail : List Nat) :
    derIntParse (derInt v ++ tail) = some (v, tail) := by
  obtain ⟨hne, hhead, hmin, hdec⟩ := derIntPayload_facts v hv
  have hlen0 : (derIntPayload v).length ≠ 0 := by
    intro hcon
    exact hne (List.length_eq_zero.mp hcon)
  have htake : ((derIntPayload v) ++ tail).take (derIntPayload v).length = derIntPayload v :=
    take_append_len rfl
  have hdrop : ((derIntPayload v) ++ tail).drop (derIntPayload v).length = tail :=
    drop_append_len rfl
  show derIntParse (2 :: (derIntPayload v).length :: ((derIntPayload v) ++ tail)) = some (v, tail)
  simp only [derIntParse]
  rw [if_pos trivial]
  rw [if_neg hlen0]
  rw [if_neg (by simp only [List.length_append]; omega)]
  simp only [htake, hdrop]
  rw [if_neg (by omega)]
  rw [if_neg hmin]
  rw [hdec]

theorem scalar_val_lt_byte33 (s : Scalar) : s.val < 256 ^ 33 :=
  lt_trans (ZMod.val_lt s) (lt_trans scN_lt_byte32 (by norm_num))

/-- Parse-after-serialize of a DER signature recovers the scalars. -/
theorem secp256k1_ecdsa_sig_parse_serialize (sig : Sig) (siglen : Nat) (l : List Nat)
    (h : secp256k1_ecdsa_sig_serialize sig siglen = some l) :
    secp256k1_ecdsa_sig_parse l = some sig := by
  unfold secp256k1_ecdsa_sig_serialize at h
  by_cases hfit : (48 :: ((derInt sig.r.val).length + (derInt sig.s.val).length) ::
      (derInt sig.r.val ++ derInt sig.s.val)).length ≤ siglen
  · rw [if_pos hfit] at h
    have hl := Option.some.injEq _ _ ▸ h
    have hl2 : l = 48 :: ((derInt sig.r.val).length + (derInt sig.s.val).length) ::
        (derInt sig.r.val ++ derInt sig.s.val) := by
      exact (Option.some.inj h).symm
    subst hl2
    simp only [secp256k1_ecdsa_sig_parse]
    rw [if_pos (And.intro trivial (List.length_append _ _).symm)]
    have hr := derIntParse_derInt sig.r.val (scalar_val_lt_byte33 sig.r) (derInt sig.s.val)
    rw [hr]
    have hs := derIntParse_derInt sig.s.val (scalar_val_lt_byte33 sig.s) []
    rw [List.append_nil] at hs
    simp only [hs]
    rw [if_pos ⟨trivial, ZMod.val_lt sig.r, ZMod.val_lt sig.s⟩]
    rw [natCast_val_self, natCast_val_self]
  · rw [if_neg hfit] at h
    exact absurd h (by simp)

/-!
## ECDSA correctness
-/

theorem scalar_cast_ne_zero {d : Nat} (h1 : 1 ≤ d) (h2 : d < scN) : (d : Scalar) ≠ 0 := by
  intro hc
  have hv := ZMod.val_cast_of_lt h2
  rw [hc, ZMod.val_zero] at hv
  omega

theorem verify_R_eq (s0 non r sec msg : Scalar) (hs0 : s0 ≠ 0)
    (hsum : msg + r * sec = non * s0) :
    secp256k1_scalar_inverse s0 * r * sec + secp256k1_scalar_inverse s0 * msg = non := by
  rw [secp256k1_scalar_inverse_eq_inv]
  have hfac : s0⁻¹ * r * sec + s0⁻¹ * msg = s0⁻¹ * (msg + r * sec) := by ring
  rw [hfac, hsum, mul_comm non s0, ← mul_assoc, inv_mul_cancel₀ hs0, one_mul]

theorem verify_R_eq_neg (s0 non r sec msg : Scalar) (hs0 : s0 ≠ 0)
    (hsum : msg + r * sec = non * s0) :
    secp256k1_scalar_inverse (-s0) * r * sec + secp256k1_scalar_inverse (-s0) * msg = -non := by
  have h2 := verify_R_eq s0 non r sec msg hs0 hsum
  rw [secp256k1_scalar_inverse_eq_inv] at h2 ⊢
  rw [inv_neg]
  calc -s0⁻¹ * r * sec + -s0⁻¹ * msg = -(s0⁻¹ * r * sec + s0⁻¹ * msg) := by ring
    _ = -non := by rw [h2]

/-- Core ECDSA correctness: a signature produced by `sig_sign` with nonce
`non ≠ 0` verifies against the public point `sec·G` of the signing key. -/
theorem ecdsa_sig_sign_verify (ctx ctx2 : Ctx) (sec msg non : Scalar) (hnon : non ≠ 0)
    (sig : Sig) (h : secp256k1_ecdsa_sig_sign ctx sec msg non = some sig) :
    secp256k1_ecdsa_sig_verify ctx2 sig sec msg = true := by
  simp only [secp256k1_ecdsa_sig_sign, secp256k1_ecmult_gen] at h
  by_cases hr0 : ((pointX non : Nat) : Scalar) = 0
  · rw [if_pos hr0] at h
    simp at h
  rw [if_neg hr0] at h
  by_cases hs0 : secp256k1_scalar_inverse non * (msg + ((pointX non : Nat) : Scalar) * sec) = 0
  · rw [if_pos hs0] at h
    simp at h
  rw [if_neg hs0] at h
  have hsig := Option.some.inj h
  subst hsig
  have hsum : msg + ((pointX non : Nat) : Scalar) * sec =
      non * (secp256k1_scalar_inverse non * (msg + ((pointX non : Nat) : Scalar) * sec)) := by
    rw [secp256k1_scalar_inverse_eq_inv, ← mul_assoc, mul_inv_cancel₀ hnon, one_mul]
  by_cases hh : secp256k1_scalar_is_high
      (secp256k1_scalar_inverse non * (msg + ((pointX non : Nat) : Scalar) * sec)) = true
  · rw [if_pos hh]
    have hlow := secp256k1_scalar_is_high_neg hs0 hh
    simp only [secp256k1_ecdsa_sig_verify, secp256k1_ecmult]
    rw [if_neg (not_or.mpr ⟨hr0, neg_ne_zero.mpr hs0⟩)]
    rw [if_neg (by rw [hlow]; exact Bool.false_ne_true)]
    simp only [verify_R_eq_neg _ _ _ _ _ hs0 hsum]
    rw [if_neg (neg_ne_zero.mpr hnon)]
    simp only [pointX_neg]
    simp
  · rw [if_neg hh]
    simp only [secp256k1_ecdsa_sig_verify, secp256k1_ecmult]
    rw [if_neg (not_or.mpr ⟨hr0, hs0⟩)]
    rw [if_neg hh]
    simp only [verify_R_eq _ _ _ _ _ hs0 hsum]
    rw [if_neg hnon]
    simp

/-- Any signature returned by `sig_sign` has a low (not high) `s`. -/
theorem ecdsa_sig_sign_low_s (ctx : Ctx) (sec msg non : Scalar) (sig : Sig)
    (h : secp256k1_ecdsa_sig_sign ctx sec msg non = some sig) :
    secp256k1_scalar_is_high sig.s = false := by
  simp only [secp256k1_ecdsa_sig_sign, secp256k1_ecmult_gen] at h
  by_cases hr0 : ((pointX non : Nat) : Scalar) = 0
  · rw [if_pos hr0] at h
    simp at h
  rw [if_neg hr0] at h
  by_cases hs0 : secp256k1_scalar_inverse non * (msg + ((pointX non : Nat) : Scalar) * sec) = 0
  · rw [if_pos hs0] at h
    simp at h
  rw [if_neg hs0] at h
  have hsig := Option.some.inj h
  subst hsig
  exact sig_s_not_high _ hs0

/-- Inversion for the nonce-retry loop: a returned signature was produced by
`sig_sign` from some nonzero, non-overflowing nonce scalar. -/
theorem ecdsa_sign_loop_extract (ctx : Ctx) (noncefp : NonceFunction) (msg32 seckey : Nat)
    (sec msg : Scalar) :
    ∀ (fuel count : Nat) (sig : Sig),
      secp256k1_ecdsa_sign_loop ctx noncefp msg32 seckey sec msg count fuel = some sig →
      ∃ non : Scalar, non ≠ 0 ∧ secp256k1_ecdsa_sig_sign ctx sec msg non = some sig := by
  intro fuel
  induction fuel with
  | zero =>
    intro count sig h
    simp [secp256k1_ecdsa_sign_loop] at h
  | succ fuel ih =>
    intro count sig h
    unfold secp256k1_ecdsa_sign_loop at h
    cases hnf : noncefp msg32 seckey count with
    | none =>
      rw [hnf] at h
      simp at h
    | some nonce32 =>
      rw [hnf] at h
      simp only [] at h
      by_cases hcond : ¬ (secp256k1_scalar_set_b32 nonce32).1 = 0 ∧
          (secp256k1_scalar_set_b32 nonce32).2 = false
      · rw [if_pos hcond] at h
        cases hsig : secp256k1_ecdsa_sig_sign ctx sec msg (secp256k1_scalar_set_b32 nonce32).1 with
        | some sig2 =>
          rw [hsig] at h
          simp only [Option.some.injEq] at h
          exact ⟨(secp256k1_scalar_set_b32 nonce32).1, hcond.1, by rw [hsig, h]⟩
        | none =>
          rw [hsig] at h
          exact ih _ _ h
      · rw [if_neg hcond] at h
        exact ih _ _ h

/-- Inversion for `secp256k1_ecdsa_sign`: a returned DER signature is the
serialization of a `sig_sign` result for some valid nonce. -/
theorem ecdsa_sign_extract (ctx : Ctx) (noncefp : NonceFunction) (fuel msg32 seckey siglen : Nat)
    (l : List Nat)
    (h : secp256k1_ecdsa_sign ctx noncefp fuel msg32 seckey siglen = some l) :
    ∃ sig : Sig, secp256k1_ecdsa_sig_serialize sig siglen = some l ∧
      ∃ non : Scalar, non ≠ 0 ∧
        secp256k1_ecdsa_sig_sign ctx (secp256k1_scalar_set_b32 seckey).1
          (secp256k1_scalar_set_b32 msg32).1 non = some sig := by
  simp only [secp256k1_ecdsa_sign] at h
  by_cases hc : (secp256k1_scalar_set_b32 seckey).2 = false ∧
      ¬ (secp256k1_scalar_set_b32 seckey).1 = 0
  · rw [if_pos hc] at h
    cases hloop : secp256k1_ecdsa_sign_loop ctx noncefp msg32 seckey
        (secp256k1_scalar_set_b32 seckey).1 (secp256k1_scalar_set_b32 msg32).1 0 fuel with
    | none =>
      rw [hloop] at h
      simp at h
    | some sig =>
      rw [hloop] at h
      obtain ⟨non, hnon, hsig⟩ :=
        ecdsa_sign_loop_extract ctx noncefp msg32 seckey _ _ fuel 0 sig hloop
      exact ⟨sig, h, non, hnon, hsig⟩
  · rw [if_neg hc] at h
    simp at h

/-- Inversion for `secp256k1_ec_pubkey_create`: a returned public key parses
back to the point `d·G` of the secret key `d`. -/
theorem pubkey_create_parse (ctx : Ctx) (seckey : Nat) (compressed : Bool) (q : List Nat)
    (h : secp256k1_ec_pubkey_create ctx seckey compressed = some q) :
    secp256k1_eckey_pubkey_parse q = some ((seckey : Nat) : Scalar) := by
  simp only [secp256k1_ec_pubkey_create, secp256k1_ecmult_gen] at h
  by_cases hovf : (secp256k1_scalar_set_b32 seckey).2 = false
  · rw [if_pos hovf] at h
    exact secp256k1_eckey_pubkey_parse_serialize _ _ _ h
  · rw [if_neg hovf] at h
    simp at h

/-- C1: for every secret key whose 32-byte value lies in `[1, n-1]` and every
32-byte message hash, if `secp256k1_ecdsa_sign` (with the default nonce
function) returns a signature, then `secp256k1_ecdsa_verify` accepts it
(returns 1) for the public key produced by `secp256k1_ec_pubkey_create` from
the same secret key. -/
theorem claim_C1 (ctx : Ctx) (fuel : Nat) (d m siglen : Nat) (compressed : Bool)
    (hd1 : 1 ≤ d) (hd2 : d ≤ scN - 1) (hm : m < 2 ^ 256)
    (sigbytes qbytes : List Nat)
    (hsign : secp256k1_ecdsa_sign ctx secp256k1_nonce_function_default fuel m d siglen =
      some sigbytes)
    (hpk : secp256k1_ec_pubkey_create ctx d compressed = some qbytes) :
    secp256k1_ecdsa_verify ctx m sigbytes qbytes = 1 := by
  obtain ⟨sig, hser, non, hnon, hsig⟩ :=
    ecdsa_sign_extract ctx secp256k1_nonce_function_default fuel m d siglen sigbytes hsign
  have hparse_sig := secp256k1_ecdsa_sig_parse_serialize sig siglen sigbytes hser
  have hparse_q := pubkey_create_parse ctx d compressed qbytes hpk
  have hver := ecdsa_sig_sign_verify ctx ctx _ _ non hnon sig hsig
  simp only [secp256k1_scalar_set_b32] at hver
  simp only [secp256k1_ecdsa_verify, secp256k1_scalar_set_b32, hparse_q, hparse_sig, hver,
    if_true]

/-- A concrete context for witnesses (the H generator choice is irrelevant
to every theorem above, which hold for all contexts). -/
def ctx0 : Ctx := ⟨1⟩

theorem claim_C1_witness :
    secp256k1_ecdsa_verify ctx0 1
      [48, 39, 2, 3, 1, 0, 3, 2, 32, 59, 109, 77, 184, 22, 215, 187, 120, 205, 149, 151, 63,
        58, 66, 81, 56, 192, 208, 65, 155, 80, 179, 28, 9, 74, 198, 7, 220, 252, 231, 1, 166]
      [2, 0, 0, 0, 0, 0, 0, 0, 0, 0, 0, 0, 0, 0, 0, 0, 0, 0, 0, 0, 0, 0, 0, 0, 0, 0, 0, 0, 0,
        0, 0, 0, 1] = 1 :=
  claim_C1 ctx0 1 1 1 72 true (by norm_num) (by norm_num [scN]) (by norm_num) _ _
    (by decide) (by decide)

/-- Inversion for `secp256k1_ecdsa_sign_ex`: a successful call saved a
`sig_sign` result produced from some nonzero nonce. -/
theorem ecdsa_sign_ex_extract (ctx : Ctx) (noncefp : NonceFunction) (fuel msg32 seckey : Nat)
    (out : List Nat)
    (h : secp256k1_ecdsa_sign_ex ctx noncefp fuel msg32 seckey = (true, out)) :
    ∃ sig : Sig, out = secp256k1_ecdsa_signature_save sig ∧
      ∃ non : Scalar, non ≠ 0 ∧
        secp256k1_ecdsa_sig_sign ctx (secp256k1_scalar_set_b32 seckey).1
          (secp256k1_scalar_set_b32 msg32).1 non = some sig := by
  simp only [secp256k1_ecdsa_sign_ex] at h
  by_cases hc : (secp256k1_scalar_set_b32 seckey).2 = false ∧
      ¬ (secp256k1_scalar_set_b32 seckey).1 = 0
  · rw [if_pos hc] at h
    cases hloop : secp256k1_ecdsa_sign_loop ctx noncefp msg32 seckey
        (secp256k1_scalar_set_b32 seckey).1 (secp256k1_scalar_set_b32 msg32).1 0 fuel with
    | none =>
      rw [hloop] at h
      simp at h
    | some sig =>
      rw [hloop] at h
      simp only [Prod.mk.injEq] at h
      obtain ⟨non, hnon, hsig⟩ :=
        ecdsa_sign_loop_extract ctx noncefp msg32 seckey _ _ fuel 0 sig hloop
      exact ⟨sig, h.2.symm, non, hnon, hsig⟩
  · rw [if_neg hc] at h
    simp at h

/-- When the parsed `s` is high, `sig_verify` rejects. -/
theorem sig_verify_high_false (ctx : Ctx) (sig : Sig) (q : Point) (m : Scalar)
    (h : secp256k1_scalar_is_high sig.s = true) :
    secp256k1_ecdsa_sig_verify ctx sig q m = false := by
  unfold secp256k1_ecdsa_sig_verify
  by_cases h0 : sig.r = 0 ∨ sig.s = 0
  · rw [if_pos h0]
  · rw [if_neg h0, if_pos h]

/-- C2: both signing entry points only ever output a low (not high) `s`, and
both verification entry points return a non-1 result on any signature whose
`s` is high. -/
theorem claim_C2 :
    (∀ (ctx : Ctx) (noncefp : NonceFunction) (fuel m d len : Nat) (bytes : List Nat),
      secp256k1_ecdsa_sign ctx noncefp fuel m d len = some bytes →
      ∃ rs : Sig, secp256k1_ecdsa_sig_parse bytes = some rs ∧
        secp256k1_scalar_is_high rs.s = false) ∧
    (∀ (ctx : Ctx) (noncefp : NonceFunction) (fuel m d : Nat) (out : List Nat),
      secp256k1_ecdsa_sign_ex ctx noncefp fuel m d = (true, out) →
      ∃ rs : Sig, out = secp256k1_ecdsa_signature_save rs ∧
        secp256k1_scalar_is_high rs.s = false) ∧
    (∀ (ctx : Ctx) (m : Nat) (bytes pk : List Nat) (rs : Sig),
      secp256k1_ecdsa_sig_parse bytes = some rs →
      secp256k1_scalar_is_high rs.s = true →
      secp256k1_ecdsa_verify ctx m bytes pk ≠ 1) ∧
    (∀ (ctx : Ctx) (sigobj : List Nat) (m : Nat) (pkobj : List Nat),
      secp256k1_scalar_is_high (secp256k1_ecdsa_signature_load sigobj).s = true →
      secp256k1_ecdsa_verify_ex ctx sigobj m pkobj = false) := by
  refine ⟨?_, ?_, ?_, ?_⟩
  · intro ctx noncefp fuel m d len bytes h
    obtain ⟨sig, hser, non, _hnon, hsig⟩ := ecdsa_sign_extract ctx noncefp fuel m d len bytes h
    exact ⟨sig, secp256k1_ecdsa_sig_parse_serialize sig len bytes hser,
      ecdsa_sig_sign_low_s ctx _ _ non sig hsig⟩
  · intro ctx noncefp fuel m d out h
    obtain ⟨sig, hsave, non, _hnon, hsig⟩ := ecdsa_sign_ex_extract ctx noncefp fuel m d out h
    exact ⟨sig, hsave, ecdsa_sig_sign_low_s ctx _ _ non sig hsig⟩
  · intro ctx m bytes pk rs hparse hhigh
    unfold secp256k1_ecdsa_verify
    cases hq : secp256k1_eckey_pubkey_parse pk with
    | none => simp
    | some q =>
      simp only [hparse, sig_verify_high_false ctx rs q _ hhigh]
      simp
  · intro ctx sigobj m pkobj hhigh
    simp only [secp256k1_ecdsa_verify_ex]
    rw [hhigh]
    simp

theorem claim_C2_witness :
    (∃ rs : Sig,
      secp256k1_ecdsa_sig_parse
        [48, 39, 2, 3, 1, 0, 3, 2, 32, 59, 109, 77, 184, 22, 215, 187, 120, 205, 149, 151, 63,
          58, 66, 81, 56, 192, 208, 65, 155, 80, 179, 28, 9, 74, 198, 7, 220, 252, 231, 1,
          166] = some rs ∧ secp256k1_scalar_is_high rs.s = false) ∧
    (∃ rs : Sig,
      [0, 0, 0, 0, 0, 0, 0, 0, 0, 0, 0, 0, 0, 0, 0, 0, 0, 0, 0, 0, 0, 0, 0, 0, 0, 0, 0, 0, 0,
        1, 0, 3, 59, 109, 77, 184, 22, 215, 187, 120, 205, 149, 151, 63, 58, 66, 81, 56, 192,
        208, 65, 155, 80, 179, 28, 9, 74, 198, 7, 220, 252, 231, 1, 166] =
        secp256k1_ecdsa_signature_save rs ∧ secp256k1_scalar_is_high rs.s = false) ∧
    secp256k1_ecdsa_verify ctx0 0
      [48, 38, 2, 1, 1, 2, 33, 0, 255, 255, 255, 255, 255, 255, 255, 255, 255, 255, 255, 255,
        255, 255, 255, 254, 186, 174, 220, 230, 175, 72, 160, 59, 191, 210, 94, 140, 208, 54,
        65, 64]
      [2, 0, 0, 0, 0, 0, 0, 0, 0, 0, 0, 0, 0, 0, 0, 0, 0, 0, 0, 0, 0, 0, 0, 0, 0, 0, 0, 0, 0,
        0, 0, 0, 1] ≠ 1 ∧
    secp256k1_ecdsa_verify_ex ctx0 (bePad 32 1 ++ bePad 32 (scN - 1)) 0
      (List.replicate 64 0) = false :=
  ⟨claim_C2.1 ctx0 secp256k1_nonce_function_default 1 1 1 72 _ (by decide),
   claim_C2.2.1 ctx0 secp256k1_nonce_function_default 1 1 1 _ (by decide),
   claim_C2.2.2.1 ctx0 0 _ _
     ⟨((1 : Nat) : Scalar), ((scN - 1 : Nat) : Scalar)⟩ (by decide) (by decide),
   claim_C2.2.2.2 ctx0 (bePad 32 1 ++ bePad 32 (scN - 1)) 0 (List.replicate 64 0) (by decide)⟩

/-- C3: `secp256k1_ecdsa_verify` returns exactly one of 1, 0, -1, -2 (never
its dead initial value -3): 1 iff pubkey and signature parse and the
signature validates, 0 iff both parse and it does not validate, -1 iff the
pubkey fails to parse, -2 iff the pubkey parses but the signature encoding
does not. -/
theorem claim_C3 (ctx : Ctx) (m : Nat) (sig pk : List Nat) :
    (secp256k1_ecdsa_verify ctx m sig pk = 1 ∨ secp256k1_ecdsa_verify ctx m sig pk = 0 ∨
      secp256k1_ecdsa_verify ctx m sig pk = -1 ∨ secp256k1_ecdsa_verify ctx m sig pk = -2) ∧
    (secp256k1_ecdsa_verify ctx m sig pk ≠ -3) ∧
    (secp256k1_ecdsa_verify ctx m sig pk = -1 ↔ secp256k1_eckey_pubkey_parse pk = none) ∧
    (secp256k1_ecdsa_verify ctx m sig pk = -2 ↔
      (∃ q, secp256k1_eckey_pubkey_parse pk = some q) ∧
        secp256k1_ecdsa_sig_parse sig = none) ∧
    (secp256k1_ecdsa_verify ctx m sig pk = 1 ↔
      ∃ q rs, secp256k1_eckey_pubkey_parse pk = some q ∧
        secp256k1_ecdsa_sig_parse sig = some rs ∧
        secp256k1_ecdsa_sig_verify ctx rs q (secp256k1_scalar_set_b32 m).1 = true) ∧
    (secp256k1_ecdsa_verify ctx m sig pk = 0 ↔
      ∃ q rs, secp256k1_eckey_pubkey_parse pk = some q ∧
        secp256k1_ecdsa_sig_parse sig = some rs ∧
        secp256k1_ecdsa_sig_verify ctx rs q (secp256k1_scalar_set_b32 m).1 = false) := by
  cases hq : secp256k1_eckey_pubkey_parse pk with
  | none => simp [secp256k1_ecdsa_verify, hq]
  | some q =>
    cases hs : secp256k1_ecdsa_sig_parse sig with
    | none => simp [secp256k1_ecdsa_verify, hq, hs]
    | some rs =>
      by_cases hv : secp256k1_ecdsa_sig_verify ctx rs q (secp256k1_scalar_set_b32 m).1 = true
      · simp [secp256k1_ecdsa_verify, hq, hs, hv]
      · have hv2 : secp256k1_ecdsa_sig_verify ctx rs q (secp256k1_scalar_set_b32 m).1 = false := by
          simpa using hv
        simp [secp256k1_ecdsa_verify, hq, hs, hv2]

/-- C4 counterexample: at blind = 1, value = 0 the commitment is produced
with first byte 0x02 (the ordinary compressed-point prefix written by
`secp256k1_eckey_pubkey_serialize`, which `secp256k1_pedersen_commit` calls
without replacing the sign byte), not 0x08 or 0x09 as the claim states. -/
theorem claim_C4_counterexample :
    secp256k1_pedersen_commit ctx0 1 0 =
      some [2, 0, 0, 0, 0, 0, 0, 0, 0, 0, 0, 0, 0, 0, 0, 0, 0, 0, 0, 0, 0, 0, 0, 0, 0, 0, 0,
        0, 0, 0, 0, 0, 1] ∧
    (1 : Nat) < scN ∧ (0 : Nat) < 2 ^ 64 ∧
    ¬ ([2, 0, 0, 0, 0, 0, 0, 0, 0, 0, 0, 0, 0, 0, 0, 0, 0, 0, 0, 0, 0, 0, 0, 0, 0, 0, 0,
        0, 0, 0, 0, 0, 1].headD 0 = 8 ∨
       [2, 0, 0, 0, 0, 0, 0, 0, 0, 0, 0, 0, 0, 0, 0, 0, 0, 0, 0, 0, 0, 0, 0, 0, 0, 0, 0,
        0, 0, 0, 0, 0, 1].headD 0 = 9) := by
  refine ⟨by decide, by norm_num [scN], by norm_num, by decide⟩

/-- C4 amended: for every blinding factor below n and every 64-bit value for
which `secp256k1_pedersen_commit` returns 1, the 33-byte commitment has
first byte 0x02 bitwise-or the y-parity of the committed point (0x02 or
0x03) — the standard compressed public-key prefix, so commitments are NOT
distinguishable from compressed public keys on the wire by their first
byte. -/
theorem claim_C4_amended (ctx : Ctx) (blind value : Nat) (hb : blind < scN)
    (hv : value < 2 ^ 64) (bytes : List Nat)
    (h : secp256k1_pedersen_commit ctx blind value = some bytes) :
    bytes.headD 0 =
      2 + pointParity (secp256k1_ecmult_gen_gen2 ctx ((blind : Nat) : Scalar) value) ∧
    (bytes.headD 0 = 2 ∨ bytes.headD 0 = 3) := by
  simp only [secp256k1_pedersen_commit] at h
  rw [if_pos (by simp only [secp256k1_scalar_set_b32]; simpa using not_le.mpr hb)] at h
  by_cases hz : secp256k1_ecmult_gen_gen2 ctx (secp256k1_scalar_set_b32 blind).1 value = 0
  · rw [if_pos hz] at h
    simp at h
  rw [if_neg hz] at h
  simp only [secp256k1_eckey_pubkey_serialize, if_neg hz, if_true, Option.some.injEq] at h
  subst h
  simp only [secp256k1_scalar_set_b32, List.headD_cons]
  constructor
  · trivial
  · unfold pointParity
    by_cases hp : (secp256k1_ecmult_gen_gen2 ctx ((blind : Nat) : Scalar) value).val ≤
        scN - (secp256k1_ecmult_gen_gen2 ctx ((blind : Nat) : Scalar) value).val
    · rw [if_pos hp]
      omega
    · rw [if_neg hp]
      omega

theorem claim_C4_amended_witness :
    ([2, 0, 0, 0, 0, 0, 0, 0, 0, 0, 0, 0, 0, 0, 0, 0, 0, 0, 0, 0, 0, 0, 0, 0, 0, 0, 0, 0, 0,
      0, 0, 0, 1] : List Nat).headD 0 =
      2 + pointParity (secp256k1_ecmult_gen_gen2 ctx0 ((1 : Nat) : Scalar) 0) ∧
    (([2, 0, 0, 0, 0, 0, 0, 0, 0, 0, 0, 0, 0, 0, 0, 0, 0, 0, 0, 0, 0, 0, 0, 0, 0, 0, 0, 0, 0,
      0, 0, 0, 1] : List Nat).headD 0 = 2 ∨
     ([2, 0, 0, 0, 0, 0, 0, 0, 0, 0, 0, 0, 0, 0, 0, 0, 0, 0, 0, 0, 0, 0, 0, 0, 0, 0, 0, 0, 0,
      0, 0, 0, 1] : List Nat).headD 0 = 3) :=
  claim_C4_amended ctx0 1 0 (by norm_num [scN]) (by norm_num) _ (by decide)

/-!
## Pedersen tally correctness
-/

/-- Parse a list of 33-byte commitments into points, failing if any fails
(the order of failure does not matter for the results proved below). -/
def parse_commit_list : List (List Nat) → Option (List Point)
  | [] => some []
  | c :: rest =>
    match secp256k1_eckey_pubkey_parse c, parse_commit_list rest with
    | some p, some ps => some (p :: ps)
    | _, _ => none

theorem tally_add_eq (l : List (List Nat)) :
    ∀ acc : Point, secp256k1_pedersen_tally_add acc l =
      (parse_commit_list l).map (fun Ps => acc + Ps.sum) := by
  induction l with
  | nil => intro acc; simp [secp256k1_pedersen_tally_add, parse_commit_list]
  | cons c rest ih =>
    intro acc
    simp only [secp256k1_pedersen_tally_add, parse_commit_list]
    cases hc : secp256k1_eckey_pubkey_parse c with
    | none => simp [hc]
    | some p =>
      cases hrest : parse_commit_list rest with
      | none => simp [hc, hrest, ih]
      | some Ps => simp [hc, hrest, ih, add_assoc]

theorem excess_acc_eq (ctx : Ctx) (excess : Int) :
    (if excess = 0 then (0 : Point)
     else
       if (secp256k1_sign_and_abs64 excess).2 then
         -(secp256k1_ecmult_gen2_small ctx (secp256k1_sign_and_abs64 excess).1)
       else secp256k1_ecmult_gen2_small ctx (secp256k1_sign_and_abs64 excess).1) =
    (excess : Scalar) * ctx.hGen := by
  by_cases h0 : excess = 0
  · subst h0
    simp
  rw [if_neg h0]
  have hcast : ∀ z : Int, ((z : Int) : Scalar) = Int.cast z := fun z => rfl
  by_cases hneg : excess < 0
  · have habs : (excess.natAbs : Int) = -excess := by omega
    have h1 : ((excess.natAbs : Nat) : Scalar) = -((excess : Int) : Scalar) := by
      calc ((excess.natAbs : Nat) : Scalar) = (((excess.natAbs : Int)) : Scalar) := by
            rw [Int.cast_natCast]
        _ = ((-excess : Int) : Scalar) := by rw [habs]
        _ = -((excess : Int) : Scalar) := by rw [Int.cast_neg]
    simp only [secp256k1_sign_and_abs64, secp256k1_ecmult_gen2_small, decide_eq_true_eq]
    rw [if_pos hneg, h1]
    ring
  · have habs : (excess.natAbs : Int) = excess := by omega
    have h1 : ((excess.natAbs : Nat) : Scalar) = ((excess : Int) : Scalar) := by
      calc ((excess.natAbs : Nat) : Scalar) = (((excess.natAbs : Int)) : Scalar) := by
            rw [Int.cast_natCast]
        _ = ((excess : Int) : Scalar) := by rw [habs]
    simp only [secp256k1_sign_and_abs64, secp256k1_ecmult_gen2_small, decide_eq_true_eq]
    rw [if_neg hneg, h1]

/-- C5: for commitment lists that all parse, the tally returns 1 iff the
group-element sum of the positive commitments minus the negative ones minus
`excess·H` is the point at infinity; and it returns 0 whenever any
commitment fails to parse. -/
theorem claim_C5 (ctx : Ctx) (pcs ncs : List (List Nat)) (excess : Int)
    (hex1 : -(2 ^ 63) ≤ excess) (hex2 : excess < 2 ^ 63)
    (Ps Ns : List Point)
    (hp : parse_commit_list pcs = some Ps)
    (hn : parse_commit_list ncs = some Ns) :
    (secp256k1_pedersen_verify_tally ctx pcs ncs excess = 1 ↔
      Ps.sum - Ns.sum - (excess : Scalar) * ctx.hGen = 0) ∧
    (∀ pcs2 ncs2 : List (List Nat),
      (parse_commit_list pcs2 = none ∨ parse_commit_list ncs2 = none) →
      secp256k1_pedersen_verify_tally ctx pcs2 ncs2 excess = 0) := by
  constructor
  · simp only [secp256k1_pedersen_verify_tally]
    rw [excess_acc_eq ctx excess]
    rw [tally_add_eq ncs, hn]
    simp only [Option.map_some']
    rw [tally_add_eq pcs, hp]
    simp only [Option.map_some']
    have harr : -((excess : Scalar) * ctx.hGen + Ns.sum) + Ps.sum =
        Ps.sum - Ns.sum - (excess : Scalar) * ctx.hGen := by ring
    rw [harr]
    constructor
    · intro h1
      by_contra hne
      rw [if_neg hne] at h1
      exact absurd h1 (by norm_num)
    · intro h1
      rw [if_pos h1]
  · intro pcs2 ncs2 hor
    simp only [secp256k1_pedersen_verify_tally]
    rcases hor with h | h
    · cases hn2 : parse_commit_list ncs2 with
      | none =>
        rw [tally_add_eq ncs2, hn2]
        simp
      | some Ns2 =>
        rw [tally_add_eq ncs2, hn2]
        simp only [Option.map_some']
        rw [tally_add_eq pcs2, h]
        simp
    · rw [tally_add_eq ncs2, h]
      simp

theorem claim_C5_witness :
    ((secp256k1_pedersen_verify_tally ctx0
        [[2, 0, 0, 0, 0, 0, 0, 0, 0, 0, 0, 0, 0, 0, 0, 0, 0, 0, 0, 0, 0, 0, 0, 0, 0, 0, 0, 0,
          0, 0, 0, 0, 5]] [] 5 = 1 ↔
      ([((5 : Nat) : Scalar)] : List Point).sum - ([] : List Point).sum -
        ((5 : Int) : Scalar) * ctx0.hGen = 0) ∧
    (∀ pcs2 ncs2 : List (List Nat),
      (parse_commit_list pcs2 = none ∨ parse_commit_list ncs2 = none) →
      secp256k1_pedersen_verify_tally ctx0 pcs2 ncs2 5 = 0)) :=
  claim_C5 ctx0
    [[2, 0, 0, 0, 0, 0, 0, 0, 0, 0, 0, 0, 0, 0, 0, 0, 0, 0, 0, 0, 0, 0, 0, 0, 0, 0, 0, 0, 0,
      0, 0, 0, 5]] [] 5 (by norm_num) (by norm_num) [((5 : Nat) : Scalar)] []
    (by decide) (by decide)

/-!
## Blind-sum correctness
-/

theorem blind_sum_loop_ok :
    ∀ (blinds : List Nat) (npositive i : Nat) (acc : Scalar),
      (∀ b ∈ blinds, b < scN) →
      secp256k1_pedersen_blind_sum_loop npositive acc i blinds =
        some (acc +
          ((((blinds.take (npositive - i)).map (fun b => ((b : Nat) : Scalar))).sum -
            ((blinds.drop (npositive - i)).map (fun b => ((b : Nat) : Scalar))).sum))) := by
  intro blinds
  induction blinds with
  | nil =>
    intro np i acc _
    simp [secp256k1_pedersen_blind_sum_loop]
  | cons b rest ih =>
    intro np i acc hall
    have hb : b < scN := hall b (by simp)
    have hrest : ∀ x ∈ rest, x < scN := fun x hx => hall x (by simp [hx])
    simp only [secp256k1_pedersen_blind_sum_loop]
    rw [if_neg (by simp only [secp256k1_scalar_set_b32]; simp; omega)]
    rw [ih np (i + 1) _ hrest]
    by_cases hcase : np ≤ i
    · have h1 : np - i = 0 := by omega
      have h2 : np - (i + 1) = 0 := by omega
      rw [if_pos hcase, h1, h2]
      simp only [List.take_zero, List.drop_zero, List.map_nil, List.sum_nil, List.map_cons,
        List.sum_cons, secp256k1_scalar_set_b32]
      apply congrArg some
      ring
    · have h1 : np - i = (np - (i + 1)) + 1 := by omega
      rw [if_neg hcase, h1]
      simp only [List.take_succ_cons, List.drop_succ_cons, List.map_cons, List.sum_cons,
        secp256k1_scalar_set_b32]
      apply congrArg some
      ring

theorem blind_sum_loop_none :
    ∀ (blinds : List Nat) (npositive i : Nat) (acc : Scalar),
      (∃ b ∈ blinds, scN ≤ b) →
      secp256k1_pedersen_blind_sum_loop npositive acc i blinds = none := by
  intro blinds
  induction blinds with
  | nil =>
    rintro np i acc ⟨b, hb, _⟩
    simp at hb
  | cons b rest ih =>
    rintro np i acc ⟨x, hx, hxo⟩
    simp only [secp256k1_pedersen_blind_sum_loop]
    by_cases hb : scN ≤ b
    · rw [if_pos (by simp [secp256k1_scalar_set_b32, hb])]
    · rw [if_neg (by simp only [secp256k1_scalar_set_b32]; simp; omega)]
      apply ih
      rcases List.mem_cons.mp hx with heq | hmem
      · exact absurd (heq ▸ hxo) hb
      · exact ⟨x, hmem, hxo⟩

/-- C6: with `npositive ≤ n` blinds, if every blind is below the group order
the blind-sum writes the 32-byte encoding of
`Σ_{i < npositive} bᵢ − Σ_{i ≥ npositive} bᵢ (mod n)` and succeeds; if any
blind overflows it fails. -/
theorem claim_C6 (ctx : Ctx) (blinds : List Nat) (npositive : Nat)
    (hnp : npositive ≤ blinds.length) :
    ((∀ b ∈ blinds, b < scN) →
      secp256k1_pedersen_blind_sum ctx blinds npositive =
        some ((((blinds.take npositive).map (fun b => ((b : Nat) : Scalar))).sum -
               ((blinds.drop npositive).map (fun b => ((b : Nat) : Scalar))).sum).val)) ∧
    ((∃ b ∈ blinds, scN ≤ b) →
      secp256k1_pedersen_blind_sum ctx blinds npositive = none) := by
  constructor
  · intro hall
    unfold secp256k1_pedersen_blind_sum
    rw [blind_sum_loop_ok blinds npositive 0 0 hall]
    simp [secp256k1_scalar_get_b32]
  · intro hex
    unfold secp256k1_pedersen_blind_sum
    rw [blind_sum_loop_none blinds npositive 0 0 hex]
    rfl

theorem claim_C6_witness :
    secp256k1_pedersen_blind_sum ctx0 [3, 5, 7] 2 =
      some (((([3, 5, 7].take 2).map (fun b => ((b : Nat) : Scalar))).sum -
             (([3, 5, 7].drop 2).map (fun b => ((b : Nat) : Scalar))).sum).val) ∧
    secp256k1_pedersen_blind_sum ctx0 [3, scN] 1 = none :=
  ⟨(claim_C6 ctx0 [3, 5, 7] 2 (by norm_num)).1 (by decide),
   (claim_C6 ctx0 [3, scN] 1 (by norm_num)).2 ⟨scN, by simp, le_refl scN⟩⟩

/-- C7: signing is deterministic: the output of `secp256k1_ecdsa_sign`
depends only on the (pointwise) behaviour of the nonce function and the
inputs, so two invocations with the default (RFC6979) nonce function and the
same arguments produce identical signature bytes and return values. -/
theorem claim_C7 (ctx : Ctx) (fuel m d len : Nat) (f g : NonceFunction)
    (hfg : ∀ a b c, f a b c = g a b c) :
    secp256k1_ecdsa_sign ctx f fuel m d len = secp256k1_ecdsa_sign ctx g fuel m d len ∧
    secp256k1_ecdsa_sign ctx secp256k1_nonce_function_default fuel m d len =
      secp256k1_ecdsa_sign ctx secp256k1_nonce_function_default fuel m d len := by
  have hfg2 : f = g := funext fun a => funext fun b => funext fun c => hfg a b c
  subst hfg2
  exact ⟨rfl, rfl⟩

theorem claim_C7_witness :
    secp256k1_ecdsa_sign ctx0 secp256k1_nonce_function_default 1 1 1 72 =
      secp256k1_ecdsa_sign ctx0 secp256k1_nonce_function_default 1 1 1 72 :=
  (claim_C7 ctx0 1 1 1 72 secp256k1_nonce_function_default secp256k1_nonce_function_default
    (fun _ _ _ => rfl)).2

/-- C8: for a secret key scalar `d < n`, tweak-add succeeds and replaces the
key by `(d + t) mod n` exactly when `t < n` and the result is nonzero, and
fails leaving the key bytes unchanged when `t ≥ n` or the result is zero. -/
theorem claim_C8 (d t : Nat) (hd : d < scN) :
    ((t < scN ∧ (d + t) % scN ≠ 0) →
      secp256k1_ec_privkey_tweak_add d t = (true, (d + t) % scN)) ∧
    ((scN ≤ t ∨ (d + t) % scN = 0) →
      secp256k1_ec_privkey_tweak_add d t = (false, d)) := by
  have hsum : (d : Scalar) + (t : Scalar) = ((d + t : Nat) : Scalar) := (Nat.cast_add d t).symm
  have hval : (((d + t : Nat) : Scalar)).val = (d + t) % scN := ZMod.val_natCast _
  have hzero : ((d : Scalar) + (t : Scalar) = 0) ↔ (d + t) % scN = 0 := by
    rw [hsum, ← ZMod.val_eq_zero, hval]
  constructor
  · rintro ⟨ht, hnz⟩
    have hres : secp256k1_eckey_privkey_tweak_add (d : Scalar) (t : Scalar) =
        some ((d : Scalar) + (t : Scalar)) := by
      unfold secp256k1_eckey_privkey_tweak_add
      rw [if_neg (fun hc => hnz (hzero.mp hc))]
    simp only [secp256k1_ec_privkey_tweak_add, secp256k1_scalar_set_b32, hres,
      secp256k1_scalar_get_b32]
    rw [if_pos (decide_eq_false (not_le.mpr ht))]
    rw [hsum, hval]
  · intro hor
    by_cases hz : (d : Scalar) + (t : Scalar) = 0
    · have hres : secp256k1_eckey_privkey_tweak_add (d : Scalar) (t : Scalar) = none := by
        unfold secp256k1_eckey_privkey_tweak_add
        rw [if_pos hz]
      simp only [secp256k1_ec_privkey_tweak_add, secp256k1_scalar_set_b32, hres]
    · have hres : secp256k1_eckey_privkey_tweak_add (d : Scalar) (t : Scalar) =
          some ((d : Scalar) + (t : Scalar)) := by
        unfold secp256k1_eckey_privkey_tweak_add
        rw [if_neg hz]
      have ht : scN ≤ t := by
        rcases hor with h | h
        · exact h
        · exact absurd (hzero.mpr h) hz
      simp only [secp256k1_ec_privkey_tweak_add, secp256k1_scalar_set_b32, hres]
      rw [if_neg (by simp [ht])]

theorem claim_C8_witness :
    secp256k1_ec_privkey_tweak_add 5 7 = (true, (5 + 7) % scN) ∧
    secp256k1_ec_privkey_tweak_add 5 scN = (false, 5) :=
  ⟨(claim_C8 5 7 (by norm_num [scN])).1 ⟨by norm_num [scN], by norm_num [scN]⟩,
   (claim_C8 5 scN (by norm_num [scN])).2 (Or.inl (le_refl scN))⟩

/-- C9: the input secret key is never range-checked: for every `d` (also
`d ≥ n`, which is silently reduced mod n) the call succeeds exactly when the
tweak is in range and `((d mod n) + t) mod n` is nonzero, in which case that
value is written back; only the tweak's range can cause a failure. -/
theorem claim_C9 (d t : Nat) :
    secp256k1_ec_privkey_tweak_add d t =
      if t < scN ∧ (d % scN + t) % scN ≠ 0 then (true, (d % scN + t) % scN)
      else (false, d) := by
  have hsum : (d : Scalar) + (t : Scalar) = ((d % scN + t : Nat) : Scalar) := by
    rw [Nat.cast_add, ZMod.natCast_mod]
  have hval : (((d % scN + t : Nat) : Scalar)).val = (d % scN + t) % scN := ZMod.val_natCast _
  have hzero : ((d : Scalar) + (t : Scalar) = 0) ↔ (d % scN + t) % scN = 0 := by
    rw [hsum, ← ZMod.val_eq_zero, hval]
  by_cases hcond : t < scN ∧ (d % scN + t) % scN ≠ 0
  · rw [if_pos hcond]
    have hres : secp256k1_eckey_privkey_tweak_add (d : Scalar) (t : Scalar) =
        some ((d : Scalar) + (t : Scalar)) := by
      unfold secp256k1_eckey_privkey_tweak_add
      rw [if_neg (fun hc => hcond.2 (hzero.mp hc))]
    simp only [secp256k1_ec_privkey_tweak_add, secp256k1_scalar_set_b32, hres,
      secp256k1_scalar_get_b32]
    rw [if_pos (decide_eq_false (not_le.mpr hcond.1))]
    rw [hsum, hval]
  · rw [if_neg hcond]
    by_cases hz : (d : Scalar) + (t : Scalar) = 0
    · have hres : secp256k1_eckey_privkey_tweak_add (d : Scalar) (t : Scalar) = none := by
        unfold secp256k1_eckey_privkey_tweak_add
        rw [if_pos hz]
      simp only [secp256k1_ec_privkey_tweak_add, secp256k1_scalar_set_b32, hres]
    · have hres : secp256k1_eckey_privkey_tweak_add (d : Scalar) (t : Scalar) =
          some ((d : Scalar) + (t : Scalar)) := by
        unfold secp256k1_eckey_privkey_tweak_add
        rw [if_neg hz]
      have ht : scN ≤ t := by
        by_contra hlt
        exact hcond ⟨by omega, fun hzz => hz (hzero.mpr hzz)⟩
      simp only [secp256k1_ec_privkey_tweak_add, secp256k1_scalar_set_b32, hres]
      rw [if_neg (by simp [ht])]

/-- C10: whenever `secp256k1_ec_pubkey_tweak_add_ex` returns 0, the caller's
64-byte pubkey object has been overwritten with zeros (the memset precedes
the possible save), so the input key is not preserved on failure. -/
theorem claim_C10 (ctx : Ctx) (pk : List Nat) (t : Nat) (out : List Nat)
    (h : secp256k1_ec_pubkey_tweak_add_ex ctx pk t = (false, out)) :
    out = List.replicate 64 0 := by
  simp only [secp256k1_ec_pubkey_tweak_add_ex] at h
  by_cases hc : (secp256k1_scalar_set_b32 t).2 = false ∧ (secp256k1_pubkey_load pk).1 = true
  · rw [if_pos hc] at h
    cases hres : secp256k1_eckey_pubkey_tweak_add ctx (secp256k1_pubkey_load pk).2
        (secp256k1_scalar_set_b32 t).1 with
    | some p2 =>
      simp only [hres] at h
      simp at h
    | none =>
      simp only [hres] at h
      simp only [Prod.mk.injEq] at h
      exact h.2.symm
  · rw [if_neg hc] at h
    simp only [Prod.mk.injEq] at h
    exact h.2.symm

theorem claim_C10_witness :
    (List.replicate 64 0 : List Nat) = List.replicate 64 0 ∧
    secp256k1_ec_pubkey_tweak_add_ex ctx0 (secp256k1_pubkey_save 9) scN =
      (false, List.replicate 64 0) :=
  ⟨claim_C10 ctx0 (secp256k1_pubkey_save 9) scN (List.replicate 64 0) (by decide), by decide⟩
